import Mathlib

/-!
# Flye `knot_graph` driver and repeat resolver: a shallow embedding

The definitions come first, the theorems after them.

Part I embeds `knot_graph/main.cpp` (`parseArgs`, `fileExists`, `main`).
C strings are lists of characters, `int` is `Int` kept in the 32-bit range
by `toInt32`, `size_t` is `Nat` kept below `2^64`.  The libc routines the
file calls (`getopt`, `atoi`) are modelled after glibc.  The collaborators
of `main` (logger, sequence containers, k-mer index, overlap detector and
container, assembly graph) are seen through the calls `main` makes to them:
a run yields the trace of these calls, and the environment of the run says
which of them throws `std::runtime_error`.

Part II embeds `repeat_graph/repeat_resolver.h`.
-/

namespace Flye

/-- A C string (`char*`, `std::string`): its characters, terminator left out. -/
abbrev CStr := List Char

/-! ## libc: `atoi` -/

/-- The `isspace` of the C locale. -/
def isspace (c : Char) : Bool :=
  c = ' ' || c = '\t' || c = '\n' || c = '\x0b' || c = '\x0c' || c = '\r'

/-- Value of a decimal digit character. -/
def digitValue (c : Char) : Nat := c.toNat - '0'.toNat

/-- The digit loop of `strtol` in base 10: consumes digits, stops at the first
other character. -/
def parseDigits : CStr → Nat → Nat
  | [], acc => acc
  | c :: cs, acc => if c.isDigit then parseDigits cs (acc * 10 + digitValue c) else acc

def LONG_MAX : Int := 2 ^ 63 - 1

def LONG_MIN : Int := -(2 ^ 63)

/-- The sign and digits part of `strtol(s, NULL, 10)`, after the white space. -/
def strtolSigned : CStr → Int
  | '-' :: cs => max (-(parseDigits cs 0 : Int)) LONG_MIN
  | '+' :: cs => min (parseDigits cs 0 : Int) LONG_MAX
  | cs => min (parseDigits cs 0 : Int) LONG_MAX

/-- `strtol(s, NULL, 10)` on a 64-bit `long`: white space, sign, digits,
saturating at the ends of the range. -/
def strtol (s : CStr) : Int := strtolSigned (s.dropWhile isspace)

/-- Conversion to a 32-bit `int` (two's complement wrap-around). -/
def toInt32 (x : Int) : Int := (x + 2 ^ 31) % 2 ^ 32 - 2 ^ 31

/-- Conversion of an `int` to `size_t` (64 bits, modular). -/
def toSizeT (x : Int) : Nat := (x % 2 ^ 64).toNat

/-- The `atoi` of glibc: `(int) strtol(s, NULL, 10)`. -/
def atoi (s : CStr) : Int := toInt32 (strtol s)

/-! ## libc: `getopt` -/

/-- Searches the option string for `c` the way `getopt` does (`strchr`, then
a look at the next character): `none` when `c` is no option character,
`some true` when the option takes an argument.  (Optional arguments, `::`,
do not occur in the option string of this program.) -/
def lookupOpt : CStr → Char → Option Bool
  | [], _ => none
  | o :: rest, c =>
    if o = c then
      if c = ':' ∨ c = ';' then none else some (rest.head? = some ':')
    else lookupOpt rest c

/-- One value handed back by a `getopt` call: the option character (`'?'`
for an unknown option or a missing argument) and `optarg`. -/
structure OptEvent where
  opt : Char
  optarg : CStr
  deriving DecidableEq, Repr

/-- The option characters of one argv element, the leading `-` removed
(`nextchar` walking along the element).  Gives the events completed inside
the element and, when the last character is an option that takes its
argument from the next argv element, that option character. -/
def scanCluster (optstring : CStr) : CStr → List OptEvent × Option Char
  | [] => ([], none)
  | c :: cs =>
    match lookupOpt optstring c with
    | none =>
      let r := scanCluster optstring cs
      (⟨'?', []⟩ :: r.1, r.2)
    | some false =>
      let r := scanCluster optstring cs
      (⟨c, []⟩ :: r.1, r.2)
    | some true =>
      if cs = [] then ([], some c) else ([⟨c, cs⟩], none)

/-- An argv element that `getopt` reads as options: it starts with `-` and
is longer than the lone `-`. -/
def isOptionElement : CStr → Bool
  | '-' :: _ :: _ => true
  | _ => false

/-- All calls of `getopt(argc, argv, optstring)` until it returns `-1`, over
argv[1..]: the events in order, and the elements argv[optind..] left at the
end.  `pending` is an option still waiting for its argument.  With
`posix = false` (glibc default) non-options are skipped and permuted to the
end; with `posix = true` (`POSIXLY_CORRECT`) the scan stops at the first
non-option.  `--` ends the options in both modes. -/
def getoptScan (posix : Bool) (optstring : CStr) :
    Option Char → List CStr → List OptEvent × List CStr
  | none, [] => ([], [])
  | some _, [] => ([⟨'?', []⟩], [])
  | some c, a :: rest =>
    let r := getoptScan posix optstring none rest
    (⟨c, a⟩ :: r.1, r.2)
  | none, a :: rest =>
    if a = ['-', '-'] then ([], rest)
    else if isOptionElement a then
      let cl := scanCluster optstring a.tail
      let r := getoptScan posix optstring cl.2 rest
      (cl.1 ++ r.1, r.2)
    else if posix then ([], a :: rest)
    else
      let r := getoptScan posix optstring none rest
      (r.1, a :: r.2)

/-! ## `parseArgs` -/

/-- The reference parameters of `parseArgs`. -/
structure Args where
  readsFasta : CStr
  outAssembly : CStr
  logFile : CStr
  inAssembly : CStr
  kmerSize : Int
  minKmer : Int
  maxKmer : Int
  debug : Bool
  numThreads : Nat
  overlapsFile : CStr
  minOverlap : Int
  deriving DecidableEq, Repr

/-- `const char optString[] = "k:m:x:l:t:o:v:hd"`. -/
def optString : CStr :=
  ['k', ':', 'm', ':', 'x', ':', 'l', ':', 't', ':', 'o', ':', 'v', ':', 'h', 'd']

/-- The assignments at the top of `parseArgs` (lines 48-55). -/
def setDefaults (a : Args) : Args :=
  { a with
    kmerSize := 15, minKmer := -1, maxKmer := -1, numThreads := 1, debug := false,
    logFile := [], overlapsFile := [], minOverlap := 5000 }

/-- The `switch (opt)` of `parseArgs`; `none` is the `exit(0)` of `-h`.  There
is no `default:` label, so `'?'` changes nothing. -/
def switchOpt (e : OptEvent) (a : Args) : Option Args :=
  if e.opt = 'k' then some { a with kmerSize := atoi e.optarg }
  else if e.opt = 'm' then some { a with minKmer := atoi e.optarg }
  else if e.opt = 'x' then some { a with maxKmer := atoi e.optarg }
  else if e.opt = 't' then some { a with numThreads := toSizeT (atoi e.optarg) }
  else if e.opt = 'v' then some { a with minOverlap := atoi e.optarg }
  else if e.opt = 'l' then some { a with logFile := e.optarg }
  else if e.opt = 'o' then some { a with overlapsFile := e.optarg }
  else if e.opt = 'd' then some { a with debug := true }
  else if e.opt = 'h' then none
  else some a

/-- The `while ((opt = getopt(...)) != -1)` loop over the events. -/
def optLoop : List OptEvent → Args → Option Args
  | [], a => some a
  | e :: es, a =>
    match switchOpt e a with
    | none => none
    | some a' => optLoop es a'

/-- How a call of `parseArgs` ends: it returns a flag, leaving the reference
parameters as in `out`, or the process leaves through `exit(0)`. -/
inductive ParseOutcome where
  | returned (ok : Bool) (out : Args)
  | exited (code : Int)
  deriving DecidableEq, Repr

/-- The function `parseArgs` of main.cpp.  `argv` includes argv[0]; `a` holds the
reference parameters on entry.  The usage text goes to stderr on `exited`
and on `returned false`. -/
def parseArgs (posix : Bool) (argv : List CStr) (a : Args) : ParseOutcome :=
  let scan := getoptScan posix optString none argv.tail
  match optLoop scan.1 (setDefaults a) with
  | none => .exited 0
  | some a' =>
    match scan.2 with
    | [x, y, z] =>
      .returned true { a' with inAssembly := x, readsFasta := y, outAssembly := z }
    | _ => .returned false a'

/-! ## `main` -/

/-- The static members of `Parameters` that `main` assigns.  Their declaration
(config.h) is not among the sources; they are given the types of the locals
assigned to them. -/
structure Parameters where
  minimumOverlap : Int
  kmerSize : Int
  numThreads : Nat
  deriving DecidableEq, Repr

/-- The two sequence containers of `main`. -/
inductive Container where
  | seqAssembly
  | seqReads
  deriving DecidableEq, Repr

/-- The calls into collaborators made inside the `try` block of `main`, with
their arguments. -/
inductive Step where
  | setDebugging (flag : Bool)
  | setOutputFile (path : CStr)
  | debug (msg : CStr)
  | newSequenceContainer (c : Container)
  | readFasta (c : Container) (path : CStr)
  | newVertexIndex
  | countKmers (hardThreshold : Int)
  | buildIndex (minCoverage maxCoverage : Int)
  | newOverlapDetector (maxJump minOverlap maxOverhang : Int)
  | newOverlapContainer
  | findAllOverlaps
  | loadOverlaps (path : CStr)
  | saveOverlaps (path : CStr)
  | newAssemblyGraph
  | construct
  | generatePathCandidates
  | outputDot (path : CStr)
  | untangle
  deriving DecidableEq, Repr

/-- What a run of `main` depends on besides argv: which collaborator calls
throw `std::runtime_error`, which paths `std::ifstream` opens, the `getopt`
mode, and the build stamp. -/
structure Env where
  raises : Step → Bool
  readable : CStr → Bool
  posixlyCorrect : Bool
  buildDate : CStr
  buildTime : CStr

/-- `fileExists`: `std::ifstream fin(path); return fin.good();`. -/
def fileExists (env : Env) (path : CStr) : Bool := env.readable path

def MAX_JUMP : Int := 500

def NO_OVERHANGS : Int := 0

/-- Lines 136-156 of `main`: the logger set-up, the two FASTA reads, the
k-mer index, the overlap detector and container. -/
def beforeStage (env : Env) (a : Args) (p : Parameters) : List Step :=
  [.setDebugging a.debug] ++
  (if a.logFile ≠ [] then [.setOutputFile a.logFile] else []) ++
  [.debug ("Build date: ".toList ++ env.buildDate ++ [' '] ++ env.buildTime),
   .debug "Reading FASTA".toList,
   .newSequenceContainer .seqAssembly,
   .readFasta .seqAssembly a.inAssembly,
   .newSequenceContainer .seqReads,
   .readFasta .seqReads a.readsFasta,
   .newVertexIndex,
   .countKmers 1,
   .buildIndex 1 50,
   .newOverlapDetector MAX_JUMP p.minimumOverlap NO_OVERHANGS,
   .newOverlapContainer]

/-- Lines 157-174 of `main`: the overlap stage. -/
def overlapStage (env : Env) (overlapsFile : CStr) : List Step :=
  if overlapsFile = [] then [.findAllOverlaps]
  else if fileExists env overlapsFile then
    [.debug ("Loading overlaps from ".toList ++ overlapsFile), .loadOverlaps overlapsFile]
  else
    [.findAllOverlaps, .debug ("Saving overlaps to ".toList ++ overlapsFile),
     .saveOverlaps overlapsFile]

/-- Lines 177-184 of `main`: the assembly graph, built, drawn, untangled and
drawn again. -/
def afterStage (a : Args) : List Step :=
  [.newAssemblyGraph,
   .construct,
   .generatePathCandidates,
   .outputDot (a.outAssembly ++ "_before".toList),
   .untangle,
   .outputDot (a.outAssembly ++ "_after".toList)]

/-- The body of the `try` block of `main` (lines 136-184) as the calls it
makes in program order.  No call returns a value the control flow uses, so
the block is this list run until a call throws. -/
def tryBlock (env : Env) (a : Args) (p : Parameters) : List Step :=
  beforeStage env a p ++ overlapStage env a.overlapsFile ++ afterStage a

/-- Runs calls in order until one throws: the calls made (the throwing one
included) and whether all of them completed. -/
def runSteps (env : Env) : List Step → List Step × Bool
  | [] => ([], true)
  | s :: rest =>
    if env.raises s then ([s], false)
    else
      let r := runSteps env rest
      (s :: r.1, r.2)

/-- How the process ends: `main` returns a code, or `exit` was called. -/
inductive Exit where
  | returned (code : Int)
  | exited (code : Int)
  deriving DecidableEq, Repr

/-- The observable result of a run of `main`: how it ended, the `Parameters`
statics afterwards, the collaborator calls made, and whether the `catch`
handler logged an error. -/
structure Run where
  exit : Exit
  params : Parameters
  trace : List Step
  errorLogged : Bool
  deriving DecidableEq, Repr

/-- The `Parameters` statics as `main` assigns them from the parsed arguments
(lines 130-132): minimumOverlap, kmerSize, numThreads. -/
def paramsOf (a : Args) : Parameters :=
  { minimumOverlap := a.minOverlap, kmerSize := a.kmerSize, numThreads := a.numThreads }

/-- The locals of `main` as declared on lines 112-122; `numThreads` has no
initialiser, its indeterminate value is `junk`. -/
def mainLocals (junk : Nat) : Args :=
  { readsFasta := [], outAssembly := [], logFile := [], inAssembly := [],
    kmerSize := 0, minKmer := 0, maxKmer := 0, debug := false,
    numThreads := junk, overlapsFile := [], minOverlap := 0 }

/-- The function `main` of main.cpp.  `globals` are the `Parameters` statics
on entry. -/
def main (env : Env) (argv : List CStr) (globals : Parameters) (junk : Nat) : Run :=
  match parseArgs env.posixlyCorrect argv (mainLocals junk) with
  | .exited code => { exit := .exited code, params := globals, trace := [], errorLogged := false }
  | .returned false _ =>
    { exit := .returned 1, params := globals, trace := [], errorLogged := false }
  | .returned true a =>
    let r := runSteps env (tryBlock env a (paramsOf a))
    { exit := .returned (if r.2 then 0 else 1), params := paramsOf a, trace := r.1,
      errorLogged := !r.2 }

/-! ## Claims as stated, for the ones the code does not meet -/

/-- The argument of the last event for option `c`, `acc` when there is none. -/
def lastArgOf (c : Char) : List OptEvent → Option CStr → Option CStr
  | [], acc => acc
  | e :: es, acc => lastArgOf c es (if e.opt = c then some e.optarg else acc)

/-- The path given with `-o` on the command line `argv` (the last `-o` when
there are several), `none` when there is no `-o`. -/
def givenOverlapsPath (posix : Bool) (argv : List CStr) : Option CStr :=
  lastArgOf 'o' (getoptScan posix optString none argv.tail).1 none

/-- The call `x` is made and, later in the trace, the call `y`. -/
def CalledThen (trace : List Step) (x y : Step) : Prop :=
  ∃ l1 l2 l3, trace = l1 ++ x :: l2 ++ y :: l3

/-- The overlap cache policy as the specification words it, for one run. -/
def OverlapCachePolicy (env : Env) (argv : List CStr) (globals : Parameters) (junk : Nat) :
    Prop :=
  let trace := (main env argv globals junk).trace
  match givenOverlapsPath env.posixlyCorrect argv with
  | some path =>
    if fileExists env path then
      Step.loadOverlaps path ∈ trace ∧ Step.findAllOverlaps ∉ trace
    else CalledThen trace .findAllOverlaps (.saveOverlaps path)
  | none =>
    Step.findAllOverlaps ∈ trace ∧ ∀ p, Step.loadOverlaps p ∉ trace ∧ Step.saveOverlaps p ∉ trace

/-- The eight option outputs of `parseArgs`: kmerSize, minKmer, maxKmer, debug,
numThreads, logFile, overlapsFile, minOverlap. -/
def optionOutputs (a : Args) : Int × Int × Int × Bool × Nat × CStr × CStr × Int :=
  (a.kmerSize, a.minKmer, a.maxKmer, a.debug, a.numThreads, a.logFile, a.overlapsFile,
    a.minOverlap)

/-- The three positional outputs of `parseArgs`: inAssembly, readsFasta,
outAssembly. -/
def positionalOutputs (a : Args) : CStr × CStr × CStr :=
  (a.inAssembly, a.readsFasta, a.outAssembly)

/-! ## Auxiliary definitions for the statements -/

/-- Puts the positional outputs `x y z` into `a`. -/
def withPositionals (a : Args) (x y z : CStr) : Args :=
  { a with inAssembly := x, readsFasta := y, outAssembly := z }

/-- The decimal numeral of an integer: a `-` for a negative one, then the
digits, most significant first. -/
def decimal : Int → CStr
  | .ofNat n => Nat.toDigits 10 n
  | .negSucc n => '-' :: Nat.toDigits 10 (n + 1)

/-- The value of a string of digits read from the left. -/
def digitsValue (cs : CStr) (acc : Nat) : Nat :=
  cs.foldl (fun v c => v * 10 + digitValue c) acc

/-- What `parseArgs` leaves in its outputs for `prog a b c`: the documented
defaults and the three positional arguments. -/
def parsedDefaults (a b c : CStr) : Args :=
  { readsFasta := b, outAssembly := c, logFile := [], inAssembly := a, kmerSize := 15,
    minKmer := -1, maxKmer := -1, debug := false, numThreads := 1, overlapsFile := [],
    minOverlap := 5000 }

/-- The option part of C8 as stated, for `-t`: on `prog -t <n> a b c` the call
returns true with numThreads equal to the integer `n`. -/
def ThreadsOptionKept (posix : Bool) (prog a b c : CStr) (a0 : Args) (n : Int) : Prop :=
  ∃ out, parseArgs posix [prog, ['-', 't'], decimal n, a, b, c] a0 = .returned true out ∧
    (out.numThreads : Int) = n

/-- The calls of the list `l` that come before the call `c` in program order. -/
def callsBefore (c : Step) (l : List Step) : List Step :=
  l.takeWhile (fun s => decide (s ≠ c))

/-- No call that comes before `c` in the `try` block raises. -/
def NoRaiseBefore (env : Env) (a : Args) (c : Step) : Prop :=
  ∀ s ∈ callsBefore c (tryBlock env a (paramsOf a)), env.raises s = false

/-! ## Concrete runs -/

/-- A run environment in which no call raises and no file can be opened. -/
def envQuiet : Env :=
  { raises := fun _ => false, readable := fun _ => false, posixlyCorrect := false,
    buildDate := [], buildTime := [] }

/-- As `envQuiet`, but reading the reads file `b` raises. -/
def envReadsFail : Env :=
  { envQuiet with raises := fun s => decide (s = .readFasta .seqReads ['b']) }

/-- Some values of the `Parameters` statics before `main` runs. -/
def globals0 : Parameters := { minimumOverlap := 0, kmerSize := 0, numThreads := 0 }

/-- The command line `prog a b c`. -/
def argvPlain : List CStr := [['p'], ['a'], ['b'], ['c']]

/-- The command line `prog a b`. -/
def argvTwo : List CStr := [['p'], ['a'], ['b']]

/-- The command line `prog -o ovl a b c`. -/
def argvCache : List CStr := [['p'], ['-', 'o'], ['o', 'v', 'l'], ['a'], ['b'], ['c']]

/-- The command line `prog -m 5 -x 100 a b c`. -/
def argvCoverage : List CStr :=
  [['p'], ['-', 'm'], ['5'], ['-', 'x'], ['1', '0', '0'], ['a'], ['b'], ['c']]

/-- The command line `prog -k 17 a -d b c`. -/
def argvMixed : List CStr :=
  [['p'], ['-', 'k'], ['1', '7'], ['a'], ['-', 'd'], ['b'], ['c']]

/-- As `envQuiet`, but `findAllOverlaps` raises. -/
def envFindFails : Env :=
  { envQuiet with raises := fun s => decide (s = .findAllOverlaps) }

/-- As `envQuiet`, but `saveOverlaps(ovl)` raises. -/
def envSaveFails : Env :=
  { envQuiet with raises := fun s => decide (s = .saveOverlaps ['o', 'v', 'l']) }

/-- The file `ovl` can be opened and reading the reads file `b` raises. -/
def envCachedReadsFail : Env :=
  { envReadsFail with readable := fun f => decide (f = ['o', 'v', 'l']) }

/-- The file `ovl` can be opened and `loadOverlaps(ovl)` raises (a malformed
cache). -/
def envLoadFails : Env :=
  { envQuiet with
    raises := fun s => decide (s = .loadOverlaps ['o', 'v', 'l']),
    readable := fun f => decide (f = ['o', 'v', 'l']) }

/-- The command line `prog -o "" a b c`. -/
def argvEmptyCache : List CStr := [['p'], ['-', 'o'], [], ['a'], ['b'], ['c']]

/-- The command line `prog -o ovl a b`. -/
def argvCacheTwo : List CStr := [['p'], ['-', 'o'], ['o', 'v', 'l'], ['a'], ['b']]

/-- What `parseArgs` leaves in its outputs for `prog -o ovl a b c`. -/
def parsedCache : Args :=
  { parsedDefaults ['a'] ['b'] ['c'] with overlapsFile := ['o', 'v', 'l'] }

/-- A sequence identifier (`FastaRecord::Id`). -/
abbrev SeqId := Nat

/-- A vertex of the repeat graph. -/
abbrev VertexId := Nat

/-- What a `GraphEdge*` is in this embedding: the identifier of the edge. -/
abbrev EdgeId := Nat

/-- Modelled from the spec: the type `SequenceSegment` of repeat_graph.h is
missing; spec section 3: source sequence id, start and end coordinates,
orientation. -/
structure SequenceSegment where
  seqId : SeqId
  start : Int
  stop : Int
  forward : Bool
  deriving DecidableEq, Repr

/-- Modelled from the spec: the type `OverlapRange` of overlap.h is missing;
spec section 3: query id, query start, query end, target id, target start,
target end, orientation, score. -/
structure OverlapRange where
  queryId : SeqId
  queryStart : Int
  queryEnd : Int
  targetId : SeqId
  targetStart : Int
  targetEnd : Int
  forward : Bool
  score : Int
  deriving DecidableEq, Repr

/-- Modelled from the spec: the multiplicity class of an edge, spec section 3:
`unique`, `repeat`, `unresolved`. -/
inductive Multiplicity where
  | unique
  | repetitive
  | unresolved
  deriving DecidableEq, Repr

/-- Modelled from the spec: the type `GraphEdge` of repeat_graph.h is missing;
spec section 3: a directed edge between two vertices, backed by a sequence
segment, with a multiplicity class and read-support statistics (count of
traversing alignments, aggregate coverage). -/
structure GraphEdge where
  id : EdgeId
  tail : VertexId
  head : VertexId
  segment : SequenceSegment
  multiplicity : Multiplicity
  readCount : Nat
  coverage : Int
  deriving DecidableEq, Repr

/-- The `struct EdgeAlignment` of repeat_resolver.h. -/
structure EdgeAlignment where
  overlap : OverlapRange
  edge : EdgeId
  segment : SequenceSegment
  deriving DecidableEq, Repr

/-- `typedef std::vector<EdgeAlignment> GraphAlignment;`. -/
abbrev GraphAlignment := List EdgeAlignment

/-- Modelled from the spec: the type `GraphPath` of repeat_graph.h is missing;
spec section 3: an ordered sequence of edges. -/
abbrev GraphPath := List EdgeId

/-- Modelled from the spec: the class `RepeatGraph` of repeat_graph.h is
missing; spec sections 3 and 4.4: the live edges, retired edges being removed
from it; the vertices are the end points of the edges. -/
structure RepeatGraph where
  edges : List GraphEdge
  deriving DecidableEq, Repr

/-- The data members of `class RepeatResolver` the claims speak of: `_graph`,
the identifiers of the reads of `_readSeqs`, and `_readAlignments`, which
holds one slot per read (spec section 5). -/
structure RepeatResolver where
  graph : RepeatGraph
  reads : List SeqId
  readAlignments : List GraphAlignment
  deriving DecidableEq, Repr

/-- `RepeatResolver::getReadsAlignment`. -/
def getReadsAlignment (s : RepeatResolver) : List GraphAlignment := s.readAlignments

/-- Modelled from the spec: the Overlap Source of spec section 6,
`findOverlaps(sequenceId, graphEdgeSet) -> set of OverlapRange`, an external
collaborator. -/
abbrev OverlapSource := SeqId → List GraphEdge → List OverlapRange

/-- Modelled from the spec: the tunables of the Alignment Chainer, spec section
4.1: the negative overlap tolerance, the maximum jump, the penalty
per jump between different edges, the minimum chain weight. -/
structure ChainParams where
  overlapTolerance : Int
  maximumJump : Int
  jumpPenalty : Int
  minimumLength : Int
  deriving DecidableEq, Repr

/-- The live edge a handle points to, if any. -/
def RepeatGraph.edge? (g : RepeatGraph) (id : EdgeId) : Option GraphEdge :=
  g.edges.find? (fun e => e.id = id)

/-- The head vertex of the first edge is the tail vertex of the second. -/
def adjacentEdges (g : RepeatGraph) (x y : EdgeId) : Bool :=
  match g.edge? x, g.edge? y with
  | some e1, some e2 => e1.head = e2.tail
  | _, _ => false

/-- Modelled from the spec: admissibility of a successor node in the chainer,
spec section 4.1: (a) the successor's read interval starts no earlier than
the tolerance before the predecessor's read end, and no further than the
maximum jump after it, and (b) the predecessor's edge head vertex is the
successor's edge tail vertex, or the two edges are identical and the
successor continues further along the same segment. -/
def admissible (g : RepeatGraph) (cp : ChainParams) (prev next : EdgeAlignment) : Bool :=
  (prev.overlap.queryEnd - cp.overlapTolerance ≤ next.overlap.queryStart &&
    next.overlap.queryStart - prev.overlap.queryEnd ≤ cp.maximumJump) &&
  (adjacentEdges g prev.edge next.edge ||
    (prev.edge = next.edge && prev.segment.stop < next.segment.stop))

/-- Modelled from the spec: the matched length of an overlap, on the read. -/
def matchedLength (ea : EdgeAlignment) : Int := ea.overlap.queryEnd - ea.overlap.queryStart

/-- Modelled from the spec: a chain of the dynamic programme of spec section
4.1: its nodes, the last one first, its weight, its number of edge
transitions and its read start. -/
structure Chain where
  rev : List EdgeAlignment
  weight : Int
  transitions : Nat
  start : Int
  deriving DecidableEq, Repr

/-- Modelled from the spec: the chain of one node, its weight the matched
length of the node. -/
def Chain.single (n : EdgeAlignment) : Chain :=
  { rev := [n], weight := matchedLength n, transitions := 0, start := n.overlap.queryStart }

/-- Modelled from the spec: a chain with one more node; spec section 4.1: the
weight is the sum of the matched lengths minus a penalty per jump between
non-identical edges. -/
def Chain.extend (cp : ChainParams) (c : Chain) (last n : EdgeAlignment) : Chain :=
  if last.edge = n.edge then
    { c with rev := n :: c.rev, weight := c.weight + matchedLength n }
  else
    { c with rev := n :: c.rev, weight := c.weight + matchedLength n - cp.jumpPenalty,
             transitions := c.transitions + 1 }

/-- Modelled from the spec: the order on chains, spec section 4.1: larger
weight, then fewer edge transitions, then earlier start. -/
def Chain.better (a b : Chain) : Bool :=
  b.weight < a.weight ||
    (a.weight = b.weight &&
      (a.transitions < b.transitions ||
        (a.transitions = b.transitions && a.start < b.start)))

/-- Modelled from the spec: the best of a chain and a list of chains; of chains
that tie in every respect the earlier one is kept. -/
def bestOf (c : Chain) (cs : List Chain) : Chain :=
  cs.foldl (fun best d => if d.better best then d else best) c

/-- Modelled from the spec: the chains of the table that the node `n` may
follow (it is admissible after their last node), each with `n` added. -/
def extensions (g : RepeatGraph) (cp : ChainParams) (table : List Chain) (n : EdgeAlignment) :
    List Chain :=
  table.filterMap (fun c =>
    match c.rev with
    | last :: _ => if admissible g cp last n then some (c.extend cp last n) else none
    | [] => none)

/-- Modelled from the spec: the best chain that ends at the node `n`, which
starts at `n` or extends a chain of the table. -/
def chainEndingAt (g : RepeatGraph) (cp : ChainParams) (table : List Chain)
    (n : EdgeAlignment) : Chain :=
  bestOf (Chain.single n) (extensions g cp table n)

/-- Modelled from the spec: the table of the dynamic programme: for every
node, in order, the best chain ending at it. -/
def chainTable (g : RepeatGraph) (cp : ChainParams) : List EdgeAlignment → List Chain → List Chain
  | [], table => table
  | n :: rest, table => chainTable g cp rest (table ++ [chainEndingAt g cp table n])

/-- Modelled from the spec: the order of the chain nodes, by read start. -/
def startsBefore (a b : EdgeAlignment) : Prop := a.overlap.queryStart ≤ b.overlap.queryStart

instance startsBefore_decidable : DecidableRel startsBefore :=
  fun a b => inferInstanceAs (Decidable (a.overlap.queryStart ≤ b.overlap.queryStart))

/-- Modelled from the spec: `RepeatResolver::chainReadAlignments`, whose body
(repeat_resolver.cpp) is missing; spec section 4.1: the nodes are ordered by
read start, a maximum-weight admissible subsequence is selected by dynamic
programming, and a read whose best chain weighs less than the minimum is
dropped (the empty alignment). -/
def chainReadAlignments (g : RepeatGraph) (cp : ChainParams) (ovlps : List EdgeAlignment) :
    GraphAlignment :=
  match chainTable g cp (ovlps.insertionSort startsBefore) [] with
  | [] => []
  | c :: cs =>
    if (bestOf c cs).weight < cp.minimumLength then [] else (bestOf c cs).rev.reverse

/-- Modelled from the spec: the pairing of the overlaps of a read with the
edges, spec sections 3 and 4.1: every overlap the source finds against the
edge set is paired with the live edge it was matched against and the slice
of that edge's segment it covers. -/
def rawAlignments (src : OverlapSource) (g : RepeatGraph) (read : SeqId) : List EdgeAlignment :=
  (src read g.edges).filterMap (fun o =>
    (g.edge? o.targetId).map (fun e =>
      { overlap := o, edge := e.id,
        segment := { e.segment with start := e.segment.start + o.targetStart,
                                    stop := e.segment.start + o.targetEnd } }))

/-- Modelled from the spec: `RepeatResolver::alignReads`, whose body is
missing; spec sections 5 and 6: every read gets its slot filled with the
chain of its overlaps against the current graph. -/
def alignReads (src : OverlapSource) (cp : ChainParams) (s : RepeatResolver) : RepeatResolver :=
  { s with readAlignments :=
      s.reads.map (fun r => chainReadAlignments s.graph cp (rawAlignments src s.graph r)) }

/-- Modelled from the spec: the number of reads whose alignment changed: the
slots of `new` that differ from the slot of `old` at the same place (an
absent slot counts as empty). -/
def changedCount : List GraphAlignment → List GraphAlignment → Nat
  | _, [] => 0
  | [], n :: ns => (if n = [] then 0 else 1) + changedCount [] ns
  | o :: os, n :: ns => (if n = o then 0 else 1) + changedCount os ns

/-- Modelled from the spec: `RepeatResolver::updateAlignments`, whose body is
missing; spec section 4.3 step 5: the chainer is re-run for all reads
against the mutated graph, the old alignments are discarded in full, and
the number of reads whose alignment changed is returned. -/
def updateAlignments (src : OverlapSource) (cp : ChainParams) (s : RepeatResolver) :
    RepeatResolver × Nat :=
  ((alignReads src cp s),
    changedCount s.readAlignments (alignReads src cp s).readAlignments)

/-- Modelled from the spec: retiring an edge, spec section 4.4: the edge leaves
the graph. -/
def retireEdge (s : RepeatResolver) (id : EdgeId) : RepeatResolver :=
  { s with graph := { edges := s.graph.edges.filter (fun e => e.id ≠ id) } }

/-- A vertex that is no end point of an edge of the graph. -/
def freshVertex (g : RepeatGraph) : VertexId :=
  (g.edges.foldl (fun m e => max m (max e.tail e.head)) 0) + 1

/-- Modelled from the spec: `RepeatResolver::separatePath`, whose body is
missing; spec section 4.3 step 4: a private copy of the repeat edges the
path traverses is created, backed by the read segment and named `startId`,
and the unique anchors at the two ends of the path are re-wired to connect
through the copy instead of the shared repeat edges. -/
def separatePath (s : RepeatResolver) (path : GraphPath) (segment : SequenceSegment)
    (startId : SeqId) : RepeatResolver :=
  match path.head?, path.getLast? with
  | some first, some last =>
    let v1 := freshVertex s.graph
    let v2 := v1 + 1
    let rewired := s.graph.edges.map (fun e =>
      if e.id = first then { e with head := v1 }
      else if e.id = last then { e with tail := v2 }
      else e)
    let copy : GraphEdge :=
      { id := startId, tail := v1, head := v2, segment := segment,
        multiplicity := .unique, readCount := 0, coverage := 0 }
    { s with graph := { edges := rewired ++ [copy] } }
  | _, _ => s

/-- Number of edges leaving a vertex. -/
def outDegree (g : RepeatGraph) (v : VertexId) : Nat := g.edges.countP (fun e => e.tail = v)

/-- Number of edges entering a vertex. -/
def inDegree (g : RepeatGraph) (v : VertexId) : Nat := g.edges.countP (fun e => e.head = v)

/-- Modelled from the spec: the degree pattern of a non-branching path, spec section
4.2: at most one edge in and one edge out at both end points. -/
def nonBranching (g : RepeatGraph) (e : GraphEdge) : Bool :=
  inDegree g e.tail ≤ 1 && outDegree g e.tail ≤ 1 &&
    inDegree g e.head ≤ 1 && outDegree g e.head ≤ 1

/-- Modelled from the spec: the number of graph alignments that traverse the
edge. -/
def traversals (alns : List GraphAlignment) (id : EdgeId) : Nat :=
  alns.countP (fun ga => ga.any (fun ea => ea.edge = id))

/-- Modelled from the spec: the bases aligned on the edge, summed over all
graph alignments. -/
def alignedLength (alns : List GraphAlignment) (id : EdgeId) : Int :=
  (alns.map (fun ga =>
    ((ga.filter (fun ea => ea.edge = id)).map (fun ea => ea.segment.stop - ea.segment.start)).sum)).sum

/-- Modelled from the spec: observed read coverage of an edge, spec section
4.2: the sum over the alignments traversing it, normalized by the edge
length. -/
def observedCoverage (alns : List GraphAlignment) (e : GraphEdge) : Int :=
  alignedLength alns e.id / (e.segment.stop - e.segment.start)

/-- Modelled from the spec: the label `findRepeats` gives an edge, spec section
4.2: `unique` if the coverage is at most the threshold and the end points
have the degree pattern of a non-branching path, otherwise `repeat`. -/
def classify (g : RepeatGraph) (alns : List GraphAlignment) (threshold : Int) (e : GraphEdge) :
    GraphEdge :=
  { e with
    multiplicity :=
      if observedCoverage alns e ≤ threshold ∧ nonBranching g e = true then .unique
      else .repetitive,
    readCount := traversals alns e.id,
    coverage := observedCoverage alns e }

/-- Modelled from the spec: `RepeatResolver::findRepeats`, whose body is
missing; spec section 4.2: every edge is labelled from its observed coverage
and the degrees of its end points. -/
def findRepeats (uniqueCovThreshold : Int) (s : RepeatResolver) : RepeatResolver :=
  { s with graph :=
      { edges := s.graph.edges.map (classify s.graph s.readAlignments uniqueCovThreshold) } }

/-! ## Properties of alignments -/

/-- The read interval of the second entry is not before that of the first:
neither its start nor its end. -/
def IntervalsNonDecreasing (x y : EdgeAlignment) : Prop :=
  x.overlap.queryStart ≤ y.overlap.queryStart ∧ x.overlap.queryEnd ≤ y.overlap.queryEnd

/-- Chain monotonicity as the specification words it: along the alignment the
read intervals do not decrease and each edge's head vertex is the next edge's
tail vertex. -/
def ChainMonotone (g : RepeatGraph) (ga : GraphAlignment) : Prop :=
  List.Chain' (fun x y => IntervalsNonDecreasing x y ∧ adjacentEdges g x.edge y.edge = true) ga

/-- The read interval of the second entry follows that of the first as the
chainer keeps it: it starts no earlier, no earlier than the tolerance before
the first one's end, and no later than the maximum jump after that end. -/
def Follows (cp : ChainParams) (x y : EdgeAlignment) : Prop :=
  x.overlap.queryStart ≤ y.overlap.queryStart ∧
    x.overlap.queryEnd - cp.overlapTolerance ≤ y.overlap.queryStart ∧
    y.overlap.queryStart - x.overlap.queryEnd ≤ cp.maximumJump

/-- Two consecutive entries as the chainer links them: the edges are adjacent,
or they are one edge and the second entry lies further along its segment. -/
def Linked (g : RepeatGraph) (x y : EdgeAlignment) : Prop :=
  adjacentEdges g x.edge y.edge = true ∨ (x.edge = y.edge ∧ x.segment.stop < y.segment.stop)

/-- Chain monotonicity as the chainer keeps it: each entry follows the one
before it on the read and is linked to it in the graph. -/
def ChainLinked (g : RepeatGraph) (cp : ChainParams) (ga : GraphAlignment) : Prop :=
  List.Chain' (fun x y => Follows cp x y ∧ Linked g x y) ga

/-- What the table of the chainer keeps for each chain: its nodes, in order, are
a sublist of the nodes seen so far, and each node is admissible after the
one before it. -/
def ChainOK (g : RepeatGraph) (cp : ChainParams) (seen : List EdgeAlignment) (c : Chain) : Prop :=
  c.rev.reverse.Sublist seen ∧ List.Chain' (fun y x => admissible g cp x y = true) c.rev

/-! ## A concrete graph and read -/

/-- The segment of an edge of 1000 bases. -/
def segE : SequenceSegment := { seqId := 1, start := 0, stop := 1000, forward := true }

/-- Read 7, bases 0 to 100, on bases 0 to 100 of edge 1. -/
def ovlA : EdgeAlignment :=
  { overlap := { queryId := 7, queryStart := 0, queryEnd := 100, targetId := 1,
                 targetStart := 0, targetEnd := 100, forward := true, score := 100 },
    edge := 1, segment := { segE with start := 0, stop := 100 } }

/-- Read 7, bases 100 to 200, on bases 100 to 200 of edge 1. -/
def ovlB : EdgeAlignment :=
  { overlap := { queryId := 7, queryStart := 100, queryEnd := 200, targetId := 1,
                 targetStart := 100, targetEnd := 200, forward := true, score := 100 },
    edge := 1, segment := { segE with start := 100, stop := 200 } }

/-- Some values of the chainer tunables. -/
def chainParams0 : ChainParams :=
  { overlapTolerance := 50, maximumJump := 500, jumpPenalty := 10, minimumLength := 50 }

/-- A graph of two edges in a row, 10 -> 11 -> 12, and a separate edge
20 -> 21. -/
def graphPath : RepeatGraph :=
  { edges :=
      [{ id := 1, tail := 10, head := 11, segment := segE, multiplicity := .unresolved,
         readCount := 0, coverage := 0 },
       { id := 2, tail := 11, head := 12, segment := { segE with seqId := 2 },
         multiplicity := .unresolved, readCount := 0, coverage := 0 },
       { id := 3, tail := 11, head := 13, segment := { segE with seqId := 3 },
         multiplicity := .unresolved, readCount := 0, coverage := 0 },
       { id := 4, tail := 20, head := 21, segment := { segE with seqId := 4 },
         multiplicity := .unresolved, readCount := 0, coverage := 0 }] }

/-- An overlap source that reports, for read 7, bases 0 to 100 on edge 1 and
bases 100 to 200 on the first 100 bases of edge 2, whatever the edge set. -/
def sourceTwo : OverlapSource := fun read _ =>
  if read = 7 then
    [{ queryId := 7, queryStart := 0, queryEnd := 100, targetId := 1, targetStart := 0,
       targetEnd := 100, forward := true, score := 100 },
     { queryId := 7, queryStart := 100, queryEnd := 200, targetId := 2, targetStart := 0,
       targetEnd := 100, forward := true, score := 100 }]
  else []

/-- Read 7, bases 100 to 200, on the first 100 bases of edge 2. -/
def ovlC : EdgeAlignment :=
  { overlap := { queryId := 7, queryStart := 100, queryEnd := 200, targetId := 2,
                 targetStart := 0, targetEnd := 100, forward := true, score := 100 },
    edge := 2, segment := { seqId := 2, start := 0, stop := 100, forward := true } }

/-- A resolver on `graphPath` with the single read 7, before any alignment. -/
def resolver0 : RepeatResolver := { graph := graphPath, reads := [7], readAlignments := [] }

/-- The resolver on `graphPath` after `alignReads`. -/
def resolver1 : RepeatResolver := alignReads sourceTwo chainParams0 resolver0

/-- Read 7, bases 60 to 90, on the first 30 bases of edge 2. -/
def ovlX : EdgeAlignment :=
  { overlap := { queryId := 7, queryStart := 60, queryEnd := 90, targetId := 2,
                 targetStart := 0, targetEnd := 30, forward := true, score := 30 },
    edge := 2, segment := { seqId := 2, start := 0, stop := 30, forward := true } }

/-- Read 7, bases 200 to 300, on the first 100 bases of edge 2. -/
def ovlD : EdgeAlignment :=
  { overlap := { queryId := 7, queryStart := 200, queryEnd := 300, targetId := 2,
                 targetStart := 0, targetEnd := 100, forward := true, score := 100 },
    edge := 2, segment := { seqId := 2, start := 0, stop := 100, forward := true } }

/-!
# Theorems, Part I: `knot_graph/main.cpp`
-/

/-! ## Running a list of calls -/

theorem runSteps_initial (env : Env) (l : List Step) : (runSteps env l).1 <+: l := by
  induction l with
  | nil => simp [runSteps]
  | cons s rest ih =>
    unfold runSteps
    by_cases h : env.raises s = true
    · simp [h]
    · simp [h, List.prefix_cons_inj, ih]

theorem runSteps_ok (env : Env) (l : List Step) (h : (runSteps env l).2 = true) :
    (runSteps env l).1 = l ∧ ∀ s ∈ l, env.raises s = false := by
  induction l with
  | nil => simp [runSteps]
  | cons s rest ih =>
    unfold runSteps at h ⊢
    by_cases hs : env.raises s = true
    · simp [hs] at h
    · simp only [hs] at h ⊢
      simp only [Bool.false_eq_true, if_false] at h ⊢
      have := ih h
      simp [this.1, hs]
      exact this.2

theorem runSteps_all_ok (env : Env) (l : List Step) (h : ∀ s ∈ l, env.raises s = false) :
    runSteps env l = (l, true) := by
  induction l with
  | nil => simp [runSteps]
  | cons s rest ih =>
    unfold runSteps
    have hs : env.raises s = false := h s (by simp)
    have := ih (fun t ht => h t (by simp [ht]))
    simp [hs, this]

theorem runSteps_failed (env : Env) (l : List Step) (h : (runSteps env l).2 = false) :
    ∃ pre s, (runSteps env l).1 = pre ++ [s] ∧ env.raises s = true ∧
      ∀ t ∈ pre, env.raises t = false := by
  induction l with
  | nil => simp [runSteps] at h
  | cons s rest ih =>
    unfold runSteps at h ⊢
    by_cases hs : env.raises s = true
    · exact ⟨[], s, by simp [hs], hs, by simp⟩
    · simp only [hs, Bool.false_eq_true, if_false] at h ⊢
      obtain ⟨pre, t, h1, h2, h3⟩ := ih h
      refine ⟨s :: pre, t, by simp [h1], h2, ?_⟩
      intro u hu
      rcases List.mem_cons.1 hu with rfl | hu
      · simpa using hs
      · exact h3 u hu

theorem runSteps_append (env : Env) (l1 l2 : List Step) :
    runSteps env (l1 ++ l2) =
      if (runSteps env l1).2 then (l1 ++ (runSteps env l2).1, (runSteps env l2).2)
      else runSteps env l1 := by
  induction l1 with
  | nil => simp [runSteps]
  | cons s rest ih =>
    simp only [List.cons_append, runSteps]
    by_cases hs : env.raises s = true
    · simp [hs]
    · simp only [hs, Bool.false_eq_true, if_false]
      by_cases hr : (runSteps env rest).2 = true
      · simp [hr, ih]
      · simp [hr, ih]

/-- A call that raised is the last one of the trace, and all before it
completed. -/
theorem runSteps_raised_last (env : Env) (l : List Step) (s : Step)
    (hs : s ∈ (runSteps env l).1) (hr : env.raises s = true) :
    (runSteps env l).2 = false ∧
      ∃ pre, (runSteps env l).1 = pre ++ [s] ∧ ∀ t ∈ pre, env.raises t = false := by
  have hfail : (runSteps env l).2 = false := by
    by_contra hok
    have hok : (runSteps env l).2 = true := by simpa using hok
    have := runSteps_ok env l hok
    rw [this.1] at hs
    have := this.2 s hs
    simp [hr] at this
  refine ⟨hfail, ?_⟩
  obtain ⟨pre, t, h1, h2, h3⟩ := runSteps_failed env l hfail
  rw [h1] at hs
  rcases List.mem_append.1 hs with hp | ht
  · have := h3 s hp
    simp [hr] at this
  · have : s = t := by simpa using ht
    subst this
    exact ⟨pre, h1, h3⟩

/-! ## `main`: how a run unfolds -/

theorem main_of_true (env : Env) (argv : List CStr) (g : Parameters) (j : Nat) (a : Args)
    (h : parseArgs env.posixlyCorrect argv (mainLocals j) = .returned true a) :
    main env argv g j =
      { exit := .returned (if (runSteps env (tryBlock env a (paramsOf a))).2 then 0 else 1),
        params := paramsOf a,
        trace := (runSteps env (tryBlock env a (paramsOf a))).1,
        errorLogged := !(runSteps env (tryBlock env a (paramsOf a))).2 } := by
  simp [main, h, paramsOf]

theorem main_of_false (env : Env) (argv : List CStr) (g : Parameters) (j : Nat) (a : Args)
    (h : parseArgs env.posixlyCorrect argv (mainLocals j) = .returned false a) :
    main env argv g j =
      { exit := .returned 1, params := g, trace := [], errorLogged := false } := by
  simp [main, h]

theorem main_of_exited (env : Env) (argv : List CStr) (g : Parameters) (j : Nat) (c : Int)
    (h : parseArgs env.posixlyCorrect argv (mainLocals j) = .exited c) :
    main env argv g j =
      { exit := .exited c, params := g, trace := [], errorLogged := false } := by
  simp [main, h]

/-- Either `parseArgs` did not return true and nothing was called, or it
returned true and the trace is the `try` block run until a call raised. -/
theorem main_cases (env : Env) (argv : List CStr) (g : Parameters) (j : Nat) :
    ((main env argv g j).trace = [] ∧ (main env argv g j).params = g ∧
        (main env argv g j).exit ≠ .returned 0 ∧
        ∀ a, parseArgs env.posixlyCorrect argv (mainLocals j) ≠ .returned true a) ∨
      ∃ a, parseArgs env.posixlyCorrect argv (mainLocals j) = .returned true a ∧
        (main env argv g j).trace = (runSteps env (tryBlock env a (paramsOf a))).1 ∧
        (main env argv g j).params = paramsOf a ∧
        (main env argv g j).exit =
          .returned (if (runSteps env (tryBlock env a (paramsOf a))).2 then 0 else 1) := by
  cases h : parseArgs env.posixlyCorrect argv (mainLocals j) with
  | exited c =>
    left
    rw [main_of_exited env argv g j c h]
    simp
  | returned ok a =>
    cases ok with
    | false =>
      left
      rw [main_of_false env argv g j a h]
      simp
    | true =>
      right
      refine ⟨a, rfl, ?_⟩
      rw [main_of_true env argv g j a h]
      simp

/-- No call occurs twice in the `try` block, so `Env.raises` can make any one
call of a run the failing one. -/
theorem tryBlock_nodup (env : Env) (a : Args) (p : Parameters) : (tryBlock env a p).Nodup := by
  have h1 : a.outAssembly ++ "_before".toList ≠ a.outAssembly ++ "_after".toList := by
    intro h
    have := List.append_cancel_left h
    exact absurd this (by decide)
  have h2 : a.outAssembly ++ "_after".toList ≠ a.outAssembly ++ "_before".toList := fun h => h1 h.symm
  unfold tryBlock beforeStage overlapStage afterStage
  split_ifs <;> simp [h1, h2]

/-- C2: a collaborator call that raises ends the run with exit code 1, as the
last call made, in program order and with every call before it completed;
when `parseArgs` returns false, `main` returns 1 and no collaborator is
called; `main` returns 0 only when `parseArgs` returned true and the whole
`try` block ran with no call raising. -/
theorem main_boundary_errors_abort (env : Env) (argv : List CStr) (g : Parameters) (j : Nat) :
    (∀ s ∈ (main env argv g j).trace, env.raises s = true →
        (main env argv g j).exit = .returned 1 ∧
        (∃ pre, (main env argv g j).trace = pre ++ [s] ∧ ∀ t ∈ pre, env.raises t = false) ∧
        ∃ a, parseArgs env.posixlyCorrect argv (mainLocals j) = .returned true a ∧
          (main env argv g j).trace <+: tryBlock env a (paramsOf a)) ∧
      (∀ a, parseArgs env.posixlyCorrect argv (mainLocals j) = .returned false a →
        (main env argv g j).exit = .returned 1 ∧ (main env argv g j).trace = []) ∧
      ((main env argv g j).exit = .returned 0 →
        ∃ a, parseArgs env.posixlyCorrect argv (mainLocals j) = .returned true a ∧
          (main env argv g j).trace = tryBlock env a (paramsOf a) ∧
          ∀ s ∈ (main env argv g j).trace, env.raises s = false) := by
  refine ⟨?_, ?_, ?_⟩
  · intro s hs hr
    rcases main_cases env argv g j with ⟨h1, -, -, -⟩ | ⟨a, ha, h1, -, h3⟩
    · rw [h1] at hs
      simp at hs
    · rw [h1] at hs
      obtain ⟨hfail, pre, hpre, hall⟩ := runSteps_raised_last env _ s hs hr
      refine ⟨?_, ⟨pre, by rw [h1, hpre], hall⟩, a, ha, ?_⟩
      · rw [h3, hfail]
        simp
      · rw [h1]
        exact runSteps_initial env _
  · intro a ha
    rw [main_of_false env argv g j a ha]
    simp
  · intro h0
    rcases main_cases env argv g j with ⟨-, -, h3, -⟩ | ⟨a, ha, h1, -, h3⟩
    · exact absurd h0 h3
    · have hok : (runSteps env (tryBlock env a (paramsOf a))).2 = true := by
        by_contra hne
        rw [h3] at h0
        simp [hne] at h0
      have := runSteps_ok env _ hok
      refine ⟨a, ha, by rw [h1, this.1], ?_⟩
      rw [h1, this.1]
      exact this.2

/-- Witness of C2: `prog a b c` with the reads FASTA failing returns 1 right
after that call; `prog a b` returns 1 with no call made; `prog a b c` in a
quiet environment returns 0 after the whole `try` block. -/
theorem main_boundary_errors_abort_witness :
    ((main envReadsFail argvPlain globals0 0).exit = .returned 1 ∧
      (∃ pre, (main envReadsFail argvPlain globals0 0).trace =
          pre ++ [.readFasta .seqReads ['b']] ∧ ∀ t ∈ pre, envReadsFail.raises t = false) ∧
      ∃ a, parseArgs envReadsFail.posixlyCorrect argvPlain (mainLocals 0) = .returned true a ∧
        (main envReadsFail argvPlain globals0 0).trace <+: tryBlock envReadsFail a (paramsOf a)) ∧
    ((main envQuiet argvTwo globals0 0).exit = .returned 1 ∧
      (main envQuiet argvTwo globals0 0).trace = []) ∧
    (∃ a, parseArgs envQuiet.posixlyCorrect argvPlain (mainLocals 0) = .returned true a ∧
      (main envQuiet argvPlain globals0 0).trace = tryBlock envQuiet a (paramsOf a) ∧
      ∀ s ∈ (main envQuiet argvPlain globals0 0).trace, envQuiet.raises s = false) :=
  ⟨(main_boundary_errors_abort envReadsFail argvPlain globals0 0).1
      (.readFasta .seqReads ['b']) (by decide) (by decide),
    (main_boundary_errors_abort envQuiet argvTwo globals0 0).2.1
      (setDefaults (mainLocals 0)) (by decide),
    (main_boundary_errors_abort envQuiet argvPlain globals0 0).2.2 (by decide)⟩

/-! ## The overlap stage -/

theorem switchOpt_overlapsFile (e : OptEvent) (a a' : Args) (acc : Option CStr)
    (hacc : a.overlapsFile = acc.getD []) (h : switchOpt e a = some a') :
    a'.overlapsFile = (if e.opt = 'o' then some e.optarg else acc).getD [] := by
  unfold switchOpt at h
  split_ifs at h with h1 h2 h3 h4 h5 h6 h7 h8 h9 <;>
    (have h := Option.some.inj h
     subst h
     simp_all)

theorem optLoop_overlapsFile (es : List OptEvent) :
    ∀ (a a' : Args) (acc : Option CStr), a.overlapsFile = acc.getD [] →
      optLoop es a = some a' → a'.overlapsFile = (lastArgOf 'o' es acc).getD [] := by
  induction es with
  | nil =>
    intro a a' acc hacc h
    simp only [optLoop, Option.some.injEq] at h
    subst h
    simpa [lastArgOf] using hacc
  | cons e es ih =>
    intro a a' acc hacc h
    simp only [optLoop] at h
    cases hs : switchOpt e a with
    | none => simp [hs] at h
    | some a1 =>
      simp only [hs] at h
      simp only [lastArgOf]
      exact ih a1 a' _ (switchOpt_overlapsFile e a a1 acc hacc hs) h

theorem parseArgs_overlapsFile (posix : Bool) (argv : List CStr) (a0 a : Args) (ok : Bool)
    (h : parseArgs posix argv a0 = .returned ok a) :
    a.overlapsFile = (givenOverlapsPath posix argv).getD [] := by
  unfold parseArgs at h
  simp only at h
  cases hl : optLoop (getoptScan posix optString none argv.tail).1 (setDefaults a0) with
  | none => simp [hl] at h
  | some a' =>
    have key := optLoop_overlapsFile _ (setDefaults a0) a' none (by simp [setDefaults]) hl
    simp only [hl] at h
    unfold givenOverlapsPath
    split at h
    · simp only [ParseOutcome.returned.injEq] at h
      rw [← h.2]
      exact key
    · simp only [ParseOutcome.returned.injEq] at h
      rw [← h.2]
      exact key

/-- The overlap calls are made in the overlap stage only. -/
theorem not_mem_beforeStage (env : Env) (a : Args) (p : Parameters) :
    Step.newAssemblyGraph ∉ beforeStage env a p ∧ Step.findAllOverlaps ∉ beforeStage env a p ∧
      ∀ q, Step.loadOverlaps q ∉ beforeStage env a p ∧ Step.saveOverlaps q ∉ beforeStage env a p := by
  refine ⟨?_, ?_, fun q => ⟨?_, ?_⟩⟩ <;>
    (unfold beforeStage
     split_ifs <;> simp)

theorem not_mem_afterStage (a : Args) :
    Step.findAllOverlaps ∉ afterStage a ∧
      ∀ q, Step.loadOverlaps q ∉ afterStage a ∧ Step.saveOverlaps q ∉ afterStage a := by
  refine ⟨?_, fun q => ⟨?_, ?_⟩⟩ <;> simp [afterStage]

theorem calledThen_mem {trace : List Step} {x y : Step} (h : CalledThen trace x y) :
    x ∈ trace := by
  obtain ⟨l1, l2, l3, rfl⟩ := h
  simp

theorem calledThen_mem_right {trace : List Step} {x y : Step} (h : CalledThen trace x y) :
    y ∈ trace := by
  obtain ⟨l1, l2, l3, rfl⟩ := h
  simp

theorem runSteps_cons_fst (env : Env) (s : Step) (l : List Step) :
    ∃ rest, (runSteps env (s :: l)).1 = s :: rest := by
  simp only [runSteps]
  split_ifs
  · exact ⟨[], rfl⟩
  · exact ⟨_, rfl⟩

/-- A call of the list is made when no call before it raises; the trace then
starts with the calls before it. -/
theorem runSteps_reaches (env : Env) (c : Step) (l : List Step) (hc : c ∈ l)
    (h : ∀ s ∈ callsBefore c l, env.raises s = false) :
    ∃ rest, (runSteps env l).1 = callsBefore c l ++ c :: rest := by
  induction l with
  | nil => simp at hc
  | cons s l ih =>
    by_cases hs : s = c
    · subst hs
      obtain ⟨rest, hrest⟩ := runSteps_cons_fst env s l
      exact ⟨rest, by simp [callsBefore, hrest]⟩
    · have hcb : callsBefore c (s :: l) = s :: callsBefore c l := by
        simp [callsBefore, List.takeWhile_cons, hs]
      rw [hcb] at h ⊢
      have hsr : env.raises s = false := h s (by simp)
      have hcl : c ∈ l := by
        rcases List.mem_cons.1 hc with h1 | h1
        · exact absurd h1.symm hs
        · exact h1
      obtain ⟨rest, hrest⟩ := ih hcl (fun t ht => h t (by simp [ht]))
      refine ⟨rest, ?_⟩
      simp only [runSteps, hsr, Bool.false_eq_true, if_false, hrest, List.cons_append]

theorem callsBefore_append_of_not_mem (c : Step) (l1 l2 : List Step) (h : c ∉ l1) :
    callsBefore c (l1 ++ l2) = l1 ++ callsBefore c l2 := by
  induction l1 with
  | nil => rfl
  | cons s l ih =>
    have hs : s ≠ c := fun e => h (by simp [e])
    have hl : c ∉ l := fun e => h (by simp [e])
    have := ih hl
    unfold callsBefore at this ⊢
    simpa [List.takeWhile_cons, hs] using this

theorem overlap_calls_of_tryBlock (env : Env) (a : Args) (p : Parameters) (c : Step)
    (hc : c = .findAllOverlaps ∨ (∃ q, c = .loadOverlaps q) ∨ ∃ q, c = .saveOverlaps q) :
    (c ∈ tryBlock env a p ↔ c ∈ overlapStage env a.overlapsFile) ∧
      callsBefore c (tryBlock env a p) =
        beforeStage env a p ++ callsBefore c (overlapStage env a.overlapsFile ++ afterStage a) := by
  have hb := not_mem_beforeStage env a p
  have ha := not_mem_afterStage a
  have hcb : c ∉ beforeStage env a p := by
    rcases hc with rfl | ⟨q, rfl⟩ | ⟨q, rfl⟩
    · exact hb.2.1
    · exact (hb.2.2 q).1
    · exact (hb.2.2 q).2
  have hca : c ∉ afterStage a := by
    rcases hc with rfl | ⟨q, rfl⟩ | ⟨q, rfl⟩
    · exact ha.1
    · exact (ha.2 q).1
    · exact (ha.2 q).2
  constructor
  · simp only [tryBlock, List.mem_append]
    constructor
    · rintro ((h | h) | h)
      · exact absurd h hcb
      · exact h
      · exact absurd h hca
    · exact fun h => Or.inl (Or.inr h)
  · unfold tryBlock
    rw [List.append_assoc]
    exact callsBefore_append_of_not_mem c _ _ hcb

/-- The trace of a run holds only calls of the `try` block. -/
theorem trace_subset_tryBlock (env : Env) (argv : List CStr) (g : Parameters) (j : Nat) (a : Args)
    (ha : parseArgs env.posixlyCorrect argv (mainLocals j) = .returned true a) :
    ∀ s ∈ (main env argv g j).trace, s ∈ tryBlock env a (paramsOf a) := by
  rw [main_of_true env argv g j a ha]
  exact fun s hs => (runSteps_initial env _).subset hs

/-- C1, as amended: in every run in which `parseArgs` returns true, reading
"is called" as "is called if no call before it in the `try` block raises":
with a non-empty `-o` path whose file can be opened, `loadOverlaps(path)` is
called and `findAllOverlaps` is never called; with a non-empty `-o` path
whose file cannot be opened, `findAllOverlaps` is called and then
`saveOverlaps(path)`; with no `-o`, or `-o` with an empty path,
`findAllOverlaps` is called and neither `loadOverlaps` nor `saveOverlaps`
is.  When `parseArgs` does not return true no call is made. -/
theorem overlap_cache_policy_in_order (env : Env) (argv : List CStr) (g : Parameters) (j : Nat) :
    (∀ a, parseArgs env.posixlyCorrect argv (mainLocals j) = .returned true a →
      match givenOverlapsPath env.posixlyCorrect argv with
      | some path =>
        if path = [] then
          (NoRaiseBefore env a .findAllOverlaps →
            Step.findAllOverlaps ∈ (main env argv g j).trace) ∧
          ∀ p, Step.loadOverlaps p ∉ (main env argv g j).trace ∧
            Step.saveOverlaps p ∉ (main env argv g j).trace
        else if fileExists env path then
          (NoRaiseBefore env a (.loadOverlaps path) →
            Step.loadOverlaps path ∈ (main env argv g j).trace) ∧
          Step.findAllOverlaps ∉ (main env argv g j).trace
        else
          (NoRaiseBefore env a .findAllOverlaps →
            Step.findAllOverlaps ∈ (main env argv g j).trace) ∧
          (NoRaiseBefore env a (.saveOverlaps path) →
            CalledThen (main env argv g j).trace .findAllOverlaps (.saveOverlaps path))
      | none =>
        (NoRaiseBefore env a .findAllOverlaps →
          Step.findAllOverlaps ∈ (main env argv g j).trace) ∧
        ∀ p, Step.loadOverlaps p ∉ (main env argv g j).trace ∧
          Step.saveOverlaps p ∉ (main env argv g j).trace) ∧
    ((∀ a, parseArgs env.posixlyCorrect argv (mainLocals j) ≠ .returned true a) →
      (main env argv g j).trace = []) := by
  constructor
  · intro a ha
    have hsub := trace_subset_tryBlock env argv g j a ha
    have htr : (main env argv g j).trace = (runSteps env (tryBlock env a (paramsOf a))).1 := by
      rw [main_of_true env argv g j a ha]
    have hof := parseArgs_overlapsFile _ _ _ _ _ ha
    -- a prescribed call of the stage is made when no call before it raises
    have hcall : ∀ c : Step, c ∈ overlapStage env a.overlapsFile →
        (c = .findAllOverlaps ∨ (∃ q, c = .loadOverlaps q) ∨ ∃ q, c = .saveOverlaps q) →
        NoRaiseBefore env a c → c ∈ (main env argv g j).trace := by
      intro c hc hkind hno
      have hmem := ((overlap_calls_of_tryBlock env a (paramsOf a) c hkind).1).2 hc
      obtain ⟨rest, hrest⟩ := runSteps_reaches env c _ hmem hno
      rw [htr, hrest]
      simp
    -- a call that is not in the stage is never made
    have hnot : ∀ c : Step, c ∉ overlapStage env a.overlapsFile →
        (c = .findAllOverlaps ∨ (∃ q, c = .loadOverlaps q) ∨ ∃ q, c = .saveOverlaps q) →
        c ∉ (main env argv g j).trace := by
      intro c hc hkind hmem
      exact hc (((overlap_calls_of_tryBlock env a (paramsOf a) c hkind).1).1 (hsub c hmem))
    have hempty : a.overlapsFile = [] →
        (NoRaiseBefore env a .findAllOverlaps →
          Step.findAllOverlaps ∈ (main env argv g j).trace) ∧
        ∀ p, Step.loadOverlaps p ∉ (main env argv g j).trace ∧
          Step.saveOverlaps p ∉ (main env argv g j).trace := by
      intro he
      refine ⟨hcall _ (by simp [overlapStage, he]) (Or.inl rfl), fun q => ⟨?_, ?_⟩⟩
      · exact hnot _ (by simp [overlapStage, he]) (Or.inr (Or.inl ⟨q, rfl⟩))
      · exact hnot _ (by simp [overlapStage, he]) (Or.inr (Or.inr ⟨q, rfl⟩))
    cases hg : givenOverlapsPath env.posixlyCorrect argv with
    | none =>
      rw [hg] at hof
      exact hempty (by simpa using hof)
    | some path =>
      rw [hg] at hof
      have hof : a.overlapsFile = path := by simpa using hof
      by_cases hp : path = []
      · simp only [hp, if_true]
        exact hempty (by rw [hof, hp])
      · simp only [hp, if_false]
        by_cases hx : fileExists env path = true
        · simp only [hx, if_true]
          refine ⟨hcall _ (by simp [overlapStage, hof, hp, hx]) (Or.inr (Or.inl ⟨path, rfl⟩)), ?_⟩
          exact hnot _ (by simp [overlapStage, hof, hp, hx]) (Or.inl rfl)
        · simp only [hx]
          simp only [Bool.false_eq_true, if_false]
          refine ⟨hcall _ (by simp [overlapStage, hof, hp, hx]) (Or.inl rfl), ?_⟩
          intro hno
          have hkind : (Step.saveOverlaps path = .findAllOverlaps ∨
              (∃ q, Step.saveOverlaps path = .loadOverlaps q) ∨
              ∃ q, Step.saveOverlaps path = .saveOverlaps q) := Or.inr (Or.inr ⟨path, rfl⟩)
          have hcalls := overlap_calls_of_tryBlock env a (paramsOf a) (.saveOverlaps path) hkind
          have hmem := (hcalls.1).2 (by simp [overlapStage, hof, hp, hx])
          obtain ⟨rest, hrest⟩ := runSteps_reaches env _ _ hmem hno
          refine ⟨beforeStage env a (paramsOf a),
            [.debug ("Saving overlaps to ".toList ++ path)], rest, ?_⟩
          rw [htr, hrest, hcalls.2]
          simp [overlapStage, hof, hp, hx, callsBefore, List.takeWhile_cons]
  · intro hne
    rcases main_cases env argv g j with ⟨h1, -, -, -⟩ | ⟨a, ha, -, -, -⟩
    · exact h1
    · exact absurd ha (hne a)

/-- Counterexamples to C1 as stated, each with a path given by `-o`:
`prog -o ovl a b c`, no file `ovl`, the reads FASTA raising: `findAllOverlaps`
is not called; the same with `findAllOverlaps` itself raising: `saveOverlaps`
is not called; the file `ovl` there and the reads FASTA raising:
`loadOverlaps` is not called; `prog -o "" a b c`: `saveOverlaps` is not
called; `prog -o ovl a b`: `parseArgs` returns false and nothing is called. -/
theorem overlap_cache_policy_counterexamples :
    ¬ OverlapCachePolicy envReadsFail argvCache globals0 0 ∧
      ¬ OverlapCachePolicy envFindFails argvCache globals0 0 ∧
      ¬ OverlapCachePolicy envCachedReadsFail argvCache globals0 0 ∧
      ¬ OverlapCachePolicy envQuiet argvEmptyCache globals0 0 ∧
      ¬ OverlapCachePolicy envQuiet argvCacheTwo globals0 0 := by
  refine ⟨?_, ?_, ?_, ?_, ?_⟩
  · intro h
    have h2 : CalledThen (main envReadsFail argvCache globals0 0).trace .findAllOverlaps
        (.saveOverlaps ['o', 'v', 'l']) := h
    exact absurd (calledThen_mem h2) (by decide)
  · intro h
    have h2 : CalledThen (main envFindFails argvCache globals0 0).trace .findAllOverlaps
        (.saveOverlaps ['o', 'v', 'l']) := h
    exact absurd (calledThen_mem_right h2) (by decide)
  · intro h
    have h2 : Step.loadOverlaps ['o', 'v', 'l'] ∈
          (main envCachedReadsFail argvCache globals0 0).trace ∧
        Step.findAllOverlaps ∉ (main envCachedReadsFail argvCache globals0 0).trace := h
    exact absurd h2.1 (by decide)
  · intro h
    have h2 : CalledThen (main envQuiet argvEmptyCache globals0 0).trace .findAllOverlaps
        (.saveOverlaps []) := h
    exact absurd (calledThen_mem_right h2) (by decide)
  · intro h
    have h2 : CalledThen (main envQuiet argvCacheTwo globals0 0).trace .findAllOverlaps
        (.saveOverlaps ['o', 'v', 'l']) := h
    exact absurd (calledThen_mem h2) (by decide)

/-- Witness of the amended C1 on two runs that end in an error: with no file
`ovl` and `saveOverlaps(ovl)` raising, `findAllOverlaps` and then
`saveOverlaps(ovl)` are called; with a file `ovl` that `loadOverlaps` rejects,
`loadOverlaps(ovl)` is called and `findAllOverlaps` is not. -/
theorem overlap_cache_policy_in_order_witness :
    ((main envSaveFails argvCache globals0 0).exit = .returned 1 ∧
        CalledThen (main envSaveFails argvCache globals0 0).trace .findAllOverlaps
          (.saveOverlaps ['o', 'v', 'l'])) ∧
      ((main envLoadFails argvCache globals0 0).exit = .returned 1 ∧
        Step.loadOverlaps ['o', 'v', 'l'] ∈ (main envLoadFails argvCache globals0 0).trace ∧
        Step.findAllOverlaps ∉ (main envLoadFails argvCache globals0 0).trace) :=
  ⟨⟨by decide,
      ((overlap_cache_policy_in_order envSaveFails argvCache globals0 0).1 parsedCache
        (by decide)).2 (by unfold NoRaiseBefore; decide)⟩,
    ⟨by decide,
      ((overlap_cache_policy_in_order envLoadFails argvCache globals0 0).1 parsedCache
        (by decide)).1 (by unfold NoRaiseBefore; decide),
      ((overlap_cache_policy_in_order envLoadFails argvCache globals0 0).1 parsedCache
        (by decide)).2⟩⟩

/-! ## Configuration -/

/-- In every run the k-mer index is counted and built with the constants 1 and
(1, 50), whatever the command line. -/
theorem index_calls_constant (env : Env) (argv : List CStr) (g : Parameters) (j : Nat) :
    (∀ n, Step.countKmers n ∈ (main env argv g j).trace → n = 1) ∧
      ∀ lo hi, Step.buildIndex lo hi ∈ (main env argv g j).trace → lo = 1 ∧ hi = 50 := by
  rcases main_cases env argv g j with ⟨h1, -, -, -⟩ | ⟨a, -, h1, -, -⟩
  · rw [h1]
    simp
  · rw [h1]
    constructor
    · intro n hn
      have hsub := (runSteps_initial env _).subset hn
      unfold tryBlock beforeStage overlapStage afterStage at hsub
      split_ifs at hsub <;> simpa using hsub
    · intro lo hi hn
      have hsub := (runSteps_initial env _).subset hn
      unfold tryBlock beforeStage overlapStage afterStage at hsub
      split_ifs at hsub <;> simpa using hsub

/-- C7 fails on the code: `prog -m 5 -x 100 a b c` parses the bounds 5 and 100,
and the run makes the very calls of `prog a b c`: `countKmers(1)` and
`buildIndex(1, 50)`. -/
theorem coverage_bounds_ignored :
    (∃ a, parseArgs envQuiet.posixlyCorrect argvCoverage (mainLocals 0) = .returned true a ∧
        a.minKmer = 5 ∧ a.maxKmer = 100) ∧
      (main envQuiet argvCoverage globals0 0).trace = (main envQuiet argvPlain globals0 0).trace ∧
      Step.countKmers 1 ∈ (main envQuiet argvCoverage globals0 0).trace ∧
      Step.buildIndex 1 50 ∈ (main envQuiet argvCoverage globals0 0).trace ∧
      Step.countKmers 5 ∉ (main envQuiet argvCoverage globals0 0).trace ∧
      Step.buildIndex 5 100 ∉ (main envQuiet argvCoverage globals0 0).trace :=
  ⟨⟨{ readsFasta := ['b'], outAssembly := ['c'], logFile := [], inAssembly := ['a'],
      kmerSize := 15, minKmer := 5, maxKmer := 100, debug := false, numThreads := 1,
      overlapsFile := [], minOverlap := 5000 }, by decide, rfl, rfl⟩,
    by decide, by decide, by decide, by decide, by decide⟩

/-! ## `parseArgs`: positional arguments and option outputs -/

theorem switchOpt_positional (e : OptEvent) (a a' : Args) (h : switchOpt e a = some a') :
    positionalOutputs a' = positionalOutputs a := by
  unfold switchOpt at h
  split_ifs at h <;>
    (have h := Option.some.inj h
     subst h
     rfl)

theorem switchOpt_isSome (e : OptEvent) (a : Args) (h : e.opt ≠ 'h') :
    ∃ a', switchOpt e a = some a' := by
  unfold switchOpt
  split_ifs <;> exact ⟨_, rfl⟩

theorem optLoop_positional (es : List OptEvent) :
    ∀ (a a' : Args), optLoop es a = some a' → positionalOutputs a' = positionalOutputs a := by
  induction es with
  | nil =>
    intro a a' h
    simp only [optLoop, Option.some.injEq] at h
    rw [h]
  | cons e es ih =>
    intro a a' h
    simp only [optLoop] at h
    cases hs : switchOpt e a with
    | none => simp [hs] at h
    | some a1 =>
      simp only [hs] at h
      rw [ih a1 a' h, switchOpt_positional e a a1 hs]

theorem optLoop_isSome (es : List OptEvent) (h : ∀ e ∈ es, e.opt ≠ 'h') :
    ∀ a : Args, ∃ a', optLoop es a = some a' := by
  induction es with
  | nil => exact fun a => ⟨a, rfl⟩
  | cons e es ih =>
    intro a
    obtain ⟨a1, h1⟩ := switchOpt_isSome e a (h e (by simp))
    obtain ⟨a2, h2⟩ := ih (fun e' he' => h e' (by simp [he'])) a1
    exact ⟨a2, by simp [optLoop, h1, h2]⟩

/-- C9: on a command line in which `getopt` reports no `-h`, `parseArgs` returns,
and it returns true exactly when three arguments are left after the options;
then inAssembly, readsFasta and outAssembly are the first, second and third
of them; when it returns false these three outputs are as on entry. -/
theorem parseArgs_positional (posix : Bool) (argv : List CStr) (a0 : Args)
    (hh : ∀ e ∈ (getoptScan posix optString none argv.tail).1, e.opt ≠ 'h') :
    ∃ ok out, parseArgs posix argv a0 = .returned ok out ∧
      (ok = true ↔ (getoptScan posix optString none argv.tail).2.length = 3) ∧
      (ok = true → [out.inAssembly, out.readsFasta, out.outAssembly] =
        (getoptScan posix optString none argv.tail).2) ∧
      (ok = false → positionalOutputs out = positionalOutputs a0) := by
  obtain ⟨a', ha'⟩ := optLoop_isSome _ hh (setDefaults a0)
  have hpos := optLoop_positional _ _ _ ha'
  unfold parseArgs
  simp only [ha']
  split
  · next x y z hrest =>
    exact ⟨true, _, rfl, by simp [hrest], by simp [hrest], by simp⟩
  · next hrest =>
    refine ⟨false, a', rfl, ?_, by simp, fun _ => ?_⟩
    · simp only [Bool.false_eq_true, false_iff]
      intro hlen
      match hr : (getoptScan posix optString none argv.tail).2, hlen with
      | [x, y, z], _ => exact hrest x y z hr
    · rw [hpos]
      rfl

/-- Witness of C9: `prog -k 17 a -d b c` has no `-h`, leaves `a b c` and returns
true with them as inAssembly, readsFasta, outAssembly. -/
theorem parseArgs_positional_witness :
    ∃ ok out, parseArgs false argvMixed (mainLocals 0) = .returned ok out ∧
      (ok = true ↔ (getoptScan false optString none argvMixed.tail).2.length = 3) ∧
      (ok = true → [out.inAssembly, out.readsFasta, out.outAssembly] =
        (getoptScan false optString none argvMixed.tail).2) ∧
      (ok = false → positionalOutputs out = positionalOutputs (mainLocals 0)) :=
  parseArgs_positional false argvMixed (mainLocals 0) (by decide)

theorem switchOpt_withPositionals (e : OptEvent) (a : Args) (x y z : CStr) :
    switchOpt e (withPositionals a x y z) =
      (switchOpt e a).map (fun r => withPositionals r x y z) := by
  unfold switchOpt
  by_cases h1 : e.opt = 'k'
  · simp only [if_pos h1]; rfl
  simp only [if_neg h1]
  by_cases h2 : e.opt = 'm'
  · simp only [if_pos h2]; rfl
  simp only [if_neg h2]
  by_cases h3 : e.opt = 'x'
  · simp only [if_pos h3]; rfl
  simp only [if_neg h3]
  by_cases h4 : e.opt = 't'
  · simp only [if_pos h4]; rfl
  simp only [if_neg h4]
  by_cases h5 : e.opt = 'v'
  · simp only [if_pos h5]; rfl
  simp only [if_neg h5]
  by_cases h6 : e.opt = 'l'
  · simp only [if_pos h6]; rfl
  simp only [if_neg h6]
  by_cases h7 : e.opt = 'o'
  · simp only [if_pos h7]; rfl
  simp only [if_neg h7]
  by_cases h8 : e.opt = 'd'
  · simp only [if_pos h8]; rfl
  simp only [if_neg h8]
  by_cases h9 : e.opt = 'h'
  · simp only [if_pos h9]; rfl
  simp only [if_neg h9]
  rfl

theorem optLoop_withPositionals (es : List OptEvent) (x y z : CStr) :
    ∀ a : Args, optLoop es (withPositionals a x y z) =
      (optLoop es a).map (fun r => withPositionals r x y z) := by
  induction es with
  | nil => exact fun a => rfl
  | cons e es ih =>
    intro a
    simp only [optLoop, switchOpt_withPositionals]
    cases hs : switchOpt e a with
    | none => simp
    | some a1 => simpa using ih a1

/-- C10: the eight option outputs of `parseArgs` (and whether it returns or
exits, and the flag returned) do not depend on the values the reference
parameters hold on entry; and a run of `main` does not depend on the
indeterminate initial value of its local `numThreads`. -/
theorem parseArgs_overwrites_options (posix : Bool) (argv : List CStr) (a1 a2 : Args) :
    (match parseArgs posix argv a1, parseArgs posix argv a2 with
      | .returned ok1 o1, .returned ok2 o2 => ok1 = ok2 ∧ optionOutputs o1 = optionOutputs o2
      | .exited c1, .exited c2 => c1 = c2
      | _, _ => False) ∧
    ∀ (env : Env) (g : Parameters) (j1 j2 : Nat), main env argv g j1 = main env argv g j2 := by
  constructor
  · have hd : setDefaults a2 =
        withPositionals (setDefaults a1) a2.inAssembly a2.readsFasta a2.outAssembly := rfl
    unfold parseArgs
    simp only [hd, optLoop_withPositionals]
    cases optLoop (getoptScan posix optString none argv.tail).1 (setDefaults a1) with
    | none => simp
    | some a' =>
      simp only [Option.map_some']
      match (getoptScan posix optString none argv.tail).2 with
      | [] => simp [optionOutputs, withPositionals]
      | [_] => simp [optionOutputs, withPositionals]
      | [_, _] => simp [optionOutputs, withPositionals]
      | [_, _, _] => simp [optionOutputs, withPositionals]
      | _ :: _ :: _ :: _ :: _ => simp [optionOutputs, withPositionals]
  · intro env g j1 j2
    have : parseArgs env.posixlyCorrect argv (mainLocals j1) =
        parseArgs env.posixlyCorrect argv (mainLocals j2) := by
      unfold parseArgs
      rfl
    unfold main
    rw [this]

/-! ## Decimal numerals and `atoi` -/

theorem digitChar_spec (d : Nat) (h : d < 10) :
    (Nat.digitChar d).isDigit = true ∧ digitValue (Nat.digitChar d) = d ∧
      isspace (Nat.digitChar d) = false ∧ Nat.digitChar d ≠ '-' ∧ Nat.digitChar d ≠ '+' := by
  interval_cases d <;> decide

theorem parseDigits_of_digits (cs : CStr) :
    ∀ acc, (∀ c ∈ cs, c.isDigit = true) → parseDigits cs acc = digitsValue cs acc := by
  induction cs with
  | nil => intro acc _; rfl
  | cons c cs ih =>
    intro acc h
    have hc : c.isDigit = true := h c (by simp)
    simp only [parseDigits, hc, if_true, digitsValue, List.foldl_cons]
    exact ih _ (fun d hd => h d (by simp [hd]))

theorem toDigitsCore_append (fuel : Nat) :
    ∀ (n : Nat) (ds : CStr), Nat.toDigitsCore 10 fuel n ds = Nat.toDigitsCore 10 fuel n [] ++ ds := by
  induction fuel with
  | zero => intro n ds; simp [Nat.toDigitsCore]
  | succ f ih =>
    intro n ds
    simp only [Nat.toDigitsCore]
    split_ifs with h
    · simp
    · rw [ih (n / 10) (_ :: ds), ih (n / 10) [_]]
      simp

theorem toDigitsCore_spec (n : Nat) :
    ∀ fuel, n < fuel →
      Nat.toDigitsCore 10 fuel n [] ≠ [] ∧
      (∀ c ∈ Nat.toDigitsCore 10 fuel n [], c.isDigit = true ∧ isspace c = false ∧
        c ≠ '-' ∧ c ≠ '+') ∧
      digitsValue (Nat.toDigitsCore 10 fuel n []) 0 = n := by
  induction n using Nat.strong_induction_on with
  | _ n ih =>
    intro fuel hf
    obtain ⟨f, rfl⟩ : ∃ f, fuel = f + 1 := ⟨fuel - 1, by omega⟩
    have hd := digitChar_spec (n % 10) (Nat.mod_lt _ (by norm_num))
    simp only [Nat.toDigitsCore]
    split_ifs with h
    · have hn : n % 10 = n := by omega
      refine ⟨by simp, ?_, ?_⟩
      · intro c hc
        have : c = Nat.digitChar (n % 10) := by simpa using hc
        subst this
        exact ⟨hd.1, hd.2.2.1, hd.2.2.2.1, hd.2.2.2.2⟩
      · simp only [digitsValue, List.foldl_cons, List.foldl_nil, hd.2.1]
        omega
    · have hlt : n / 10 < n := by omega
      obtain ⟨h1, h2, h3⟩ := ih (n / 10) hlt f (by omega)
      rw [toDigitsCore_append]
      refine ⟨by simp [h1], ?_, ?_⟩
      · intro c hc
        rcases List.mem_append.1 hc with hc | hc
        · exact h2 c hc
        · have : c = Nat.digitChar (n % 10) := by simpa using hc
          subst this
          exact ⟨hd.1, hd.2.2.1, hd.2.2.2.1, hd.2.2.2.2⟩
      · unfold digitsValue at h3 ⊢
        rw [List.foldl_append, h3]
        simp only [List.foldl_cons, List.foldl_nil, hd.2.1]
        omega

theorem strtolSigned_unsigned (c : Char) (cs : CStr) (h1 : c ≠ '-') (h2 : c ≠ '+') :
    strtolSigned (c :: cs) = min (parseDigits (c :: cs) 0 : Int) LONG_MAX := by
  unfold strtolSigned
  split
  · next h => simp at h; exact absurd h.1 h1
  · next h => simp at h; exact absurd h.1 h2
  · rfl

theorem toInt32_of_range (z : Int) (h1 : -2 ^ 31 ≤ z) (h2 : z < 2 ^ 31) : toInt32 z = z := by
  unfold toInt32
  omega

theorem strtol_toDigits (n : Nat) (h : n < 2 ^ 63) : strtol (Nat.toDigits 10 n) = n := by
  obtain ⟨h1, h2, h3⟩ := toDigitsCore_spec n (n + 1) (by omega)
  unfold Nat.toDigits
  match hds : Nat.toDigitsCore 10 (n + 1) n [], h1 with
  | c :: cs, _ =>
    rw [hds] at h2 h3
    have hc := h2 c (by simp)
    unfold strtol
    rw [List.dropWhile_cons_of_neg (by simp [hc.2.1])]
    rw [strtolSigned_unsigned c cs hc.2.2.1 hc.2.2.2]
    rw [parseDigits_of_digits _ 0 (fun d hd => (h2 d hd).1), h3]
    unfold LONG_MAX
    omega

theorem strtol_neg_toDigits (n : Nat) (h : n ≤ 2 ^ 63) :
    strtol ('-' :: Nat.toDigits 10 n) = -(n : Int) := by
  obtain ⟨h1, h2, h3⟩ := toDigitsCore_spec n (n + 1) (by omega)
  unfold strtol
  rw [List.dropWhile_cons_of_neg (by decide)]
  have hs : ∀ cs : CStr, strtolSigned ('-' :: cs) = max (-(parseDigits cs 0 : Int)) LONG_MIN :=
    fun cs => rfl
  rw [hs]
  unfold Nat.toDigits
  rw [parseDigits_of_digits _ 0 (fun d hd => (h2 d hd).1), h3]
  unfold LONG_MIN
  omega

/-- The `atoi` of the decimal numeral of an `int` is that `int`. -/
theorem atoi_decimal (z : Int) (h1 : -2 ^ 31 ≤ z) (h2 : z < 2 ^ 31) : atoi (decimal z) = z := by
  unfold atoi
  cases z with
  | ofNat n =>
    have hn : (n : Int) < 2 ^ 31 := h2
    simp only [decimal]
    rw [strtol_toDigits n (by omega)]
    exact toInt32_of_range _ h1 h2
  | negSucc n =>
    simp only [decimal]
    have hn : n + 1 ≤ 2 ^ 31 := by
      have := h1
      simp only [Int.negSucc_eq] at this
      omega
    rw [strtol_neg_toDigits (n + 1) (by omega)]
    rw [toInt32_of_range _ (by push_cast; omega) (by push_cast; omega)]
    simp [Int.negSucc_eq]

/-! ## `parseArgs`: defaults and single options -/

theorem not_dashes_of_nonOption (a : CStr) (h : isOptionElement a = false) : a ≠ ['-', '-'] := by
  intro ha
  subst ha
  simp [isOptionElement] at h

theorem getoptScan_positionals (posix : Bool) (a b c : CStr)
    (ha : isOptionElement a = false) (hb : isOptionElement b = false)
    (hc : isOptionElement c = false) :
    getoptScan posix optString none [a, b, c] = ([], [a, b, c]) := by
  have ha2 := not_dashes_of_nonOption a ha
  have hb2 := not_dashes_of_nonOption b hb
  have hc2 := not_dashes_of_nonOption c hc
  cases posix <;> simp [getoptScan, ha, hb, hc, ha2, hb2, hc2]

/-- An option letter that takes an argument, given as `-<letter> <arg>`. -/
theorem getoptScan_option (posix : Bool) (o : Char) (s : CStr) (rest : List CStr)
    (ho : lookupOpt optString o = some true) (hd : o ≠ '-') :
    getoptScan posix optString none (['-', o] :: s :: rest) =
      (⟨o, s⟩ :: (getoptScan posix optString none rest).1,
        (getoptScan posix optString none rest).2) := by
  simp [getoptScan, isOptionElement, scanCluster, ho, hd]

theorem parseArgs_plain (posix : Bool) (prog a b c : CStr) (a0 : Args)
    (ha : isOptionElement a = false) (hb : isOptionElement b = false)
    (hc : isOptionElement c = false) :
    parseArgs posix [prog, a, b, c] a0 = .returned true (parsedDefaults a b c) := by
  unfold parseArgs
  simp only [List.tail_cons, getoptScan_positionals posix a b c ha hb hc]
  rfl

theorem parseArgs_one_option (posix : Bool) (prog a b c : CStr) (a0 : Args) (o : Char) (s : CStr)
    (ha : isOptionElement a = false) (hb : isOptionElement b = false)
    (hc : isOptionElement c = false)
    (ho : lookupOpt optString o = some true) (hd : o ≠ '-') :
    parseArgs posix [prog, ['-', o], s, a, b, c] a0 =
      match switchOpt ⟨o, s⟩ (setDefaults a0) with
      | none => .exited 0
      | some r => .returned true (withPositionals r a b c) := by
  unfold parseArgs
  simp only [List.tail_cons, getoptScan_option posix o s _ ho hd,
    getoptScan_positionals posix a b c ha hb hc, optLoop]
  cases switchOpt ⟨o, s⟩ (setDefaults a0) <;> rfl

/-- C8, as amended: `prog a b c` (three arguments that are not option elements)
returns true with the documented defaults; with one option `-k`, `-m`, `-x`
or `-v` followed by the decimal numeral of an integer in the range of `int`,
the matching output is that integer and the other outputs keep the
defaults; the same for `-t` with an integer from 0 up to the largest `int`;
with `-l` or `-o` followed by any string, the matching output is that
string. -/
theorem parseArgs_defaults_and_options (posix : Bool) (prog a b c : CStr) (a0 : Args)
    (ha : isOptionElement a = false) (hb : isOptionElement b = false)
    (hc : isOptionElement c = false) :
    parseArgs posix [prog, a, b, c] a0 = .returned true (parsedDefaults a b c) ∧
    (∀ n : Int, -2 ^ 31 ≤ n → n < 2 ^ 31 →
      parseArgs posix [prog, ['-', 'k'], decimal n, a, b, c] a0 =
          .returned true { parsedDefaults a b c with kmerSize := n } ∧
        parseArgs posix [prog, ['-', 'm'], decimal n, a, b, c] a0 =
          .returned true { parsedDefaults a b c with minKmer := n } ∧
        parseArgs posix [prog, ['-', 'x'], decimal n, a, b, c] a0 =
          .returned true { parsedDefaults a b c with maxKmer := n } ∧
        parseArgs posix [prog, ['-', 'v'], decimal n, a, b, c] a0 =
          .returned true { parsedDefaults a b c with minOverlap := n } ∧
        (0 ≤ n → parseArgs posix [prog, ['-', 't'], decimal n, a, b, c] a0 =
          .returned true { parsedDefaults a b c with numThreads := n.toNat })) ∧
    (∀ s : CStr,
      parseArgs posix [prog, ['-', 'l'], s, a, b, c] a0 =
          .returned true { parsedDefaults a b c with logFile := s } ∧
        parseArgs posix [prog, ['-', 'o'], s, a, b, c] a0 =
          .returned true { parsedDefaults a b c with overlapsFile := s }) := by
  refine ⟨parseArgs_plain posix prog a b c a0 ha hb hc, ?_, ?_⟩
  · intro n h1 h2
    have hat := atoi_decimal n h1 h2
    refine ⟨?_, ?_, ?_, ?_, ?_⟩
    · rw [parseArgs_one_option posix prog a b c a0 'k' _ ha hb hc (by decide) (by decide)]
      simp [switchOpt, hat, withPositionals, setDefaults, parsedDefaults]
    · rw [parseArgs_one_option posix prog a b c a0 'm' _ ha hb hc (by decide) (by decide)]
      simp [switchOpt, hat, withPositionals, setDefaults, parsedDefaults]
    · rw [parseArgs_one_option posix prog a b c a0 'x' _ ha hb hc (by decide) (by decide)]
      simp [switchOpt, hat, withPositionals, setDefaults, parsedDefaults]
    · rw [parseArgs_one_option posix prog a b c a0 'v' _ ha hb hc (by decide) (by decide)]
      simp [switchOpt, hat, withPositionals, setDefaults, parsedDefaults]
    · intro h0
      rw [parseArgs_one_option posix prog a b c a0 't' _ ha hb hc (by decide) (by decide)]
      have hsz : toSizeT n = n.toNat := by
        unfold toSizeT
        congr 1
        omega
      simp [switchOpt, hat, hsz, withPositionals, setDefaults, parsedDefaults]
  · intro s
    refine ⟨?_, ?_⟩
    · rw [parseArgs_one_option posix prog a b c a0 'l' _ ha hb hc (by decide) (by decide)]
      simp [switchOpt, withPositionals, setDefaults, parsedDefaults]
    · rw [parseArgs_one_option posix prog a b c a0 'o' _ ha hb hc (by decide) (by decide)]
      simp [switchOpt, withPositionals, setDefaults, parsedDefaults]

/-- Witness of the amended C8 at `prog a b c`: the defaults, and `-k 17`. -/
theorem parseArgs_defaults_and_options_witness :
    parseArgs false [['p'], ['a'], ['b'], ['c']] (mainLocals 0) =
        .returned true (parsedDefaults ['a'] ['b'] ['c']) ∧
      parseArgs false [['p'], ['-', 'k'], ['1', '7'], ['a'], ['b'], ['c']] (mainLocals 0) =
        .returned true { parsedDefaults ['a'] ['b'] ['c'] with kmerSize := 17 } :=
  ⟨(parseArgs_defaults_and_options false ['p'] ['a'] ['b'] ['c'] (mainLocals 0)
      (by decide) (by decide) (by decide)).1,
    ((parseArgs_defaults_and_options false ['p'] ['a'] ['b'] ['c'] (mainLocals 0)
      (by decide) (by decide) (by decide)).2.1 17 (by decide) (by decide)).1⟩

/-- Counterexample to C8 as stated: on `prog -t -1 a b c` the thread count is
not -1 but 2^64 - 1, the `int` -1 converted to `size_t`. -/
theorem parseArgs_threads_counterexample :
    ¬ ThreadsOptionKept false ['p'] ['a'] ['b'] ['c'] (mainLocals 0) (-1) ∧
      parseArgs false [['p'], ['-', 't'], ['-', '1'], ['a'], ['b'], ['c']] (mainLocals 0) =
        .returned true
          { parsedDefaults ['a'] ['b'] ['c'] with numThreads := 18446744073709551615 } := by
  have hrun : parseArgs false [['p'], ['-', 't'], ['-', '1'], ['a'], ['b'], ['c']]
      (mainLocals 0) = .returned true
        { parsedDefaults ['a'] ['b'] ['c'] with numThreads := 18446744073709551615 } := by
    decide
  refine ⟨?_, hrun⟩
  rintro ⟨out, h, hn⟩
  have hdec : decimal (-1) = ['-', '1'] := by decide
  rw [hdec, hrun] at h
  simp only [ParseOutcome.returned.injEq, true_and] at h
  subst h
  simp [parsedDefaults] at hn

/-!
# Theorems, Part II: the repeat resolver
-/

/-! ## The chainer -/

theorem bestOf_mem (cs : List Chain) : ∀ c : Chain, bestOf c cs ∈ c :: cs := by
  induction cs with
  | nil => intro c; simp [bestOf]
  | cons d ds ih =>
    intro c
    unfold bestOf
    simp only [List.foldl_cons]
    by_cases h : d.better c = true
    · simp only [h, if_true]
      have := ih d
      unfold bestOf at this
      rcases List.mem_cons.1 this with h1 | h1
      · simp [h1]
      · simp [h1]
    · simp only [h]
      have := ih c
      unfold bestOf at this
      rcases List.mem_cons.1 this with h1 | h1
      · simp [h1]
      · simp [h1]

theorem chainOK_single (g : RepeatGraph) (cp : ChainParams) (seen : List EdgeAlignment)
    (n : EdgeAlignment) : ChainOK g cp (seen ++ [n]) (Chain.single n) := by
  refine ⟨?_, ?_⟩
  · simp only [Chain.single, List.reverse_cons, List.reverse_nil, List.nil_append]
    exact List.sublist_append_right seen [n]
  · simp [Chain.single]

theorem chainOK_weaken (g : RepeatGraph) (cp : ChainParams) (seen : List EdgeAlignment)
    (n : EdgeAlignment) (c : Chain) (h : ChainOK g cp seen c) : ChainOK g cp (seen ++ [n]) c :=
  ⟨h.1.trans (List.sublist_append_left seen [n]), h.2⟩

theorem extend_rev (cp : ChainParams) (c : Chain) (last n : EdgeAlignment) :
    (c.extend cp last n).rev = n :: c.rev := by
  unfold Chain.extend
  split_ifs <;> rfl

theorem chainOK_extend (g : RepeatGraph) (cp : ChainParams) (seen : List EdgeAlignment)
    (n last : EdgeAlignment) (t : List EdgeAlignment) (c : Chain) (h : ChainOK g cp seen c)
    (hrev : c.rev = last :: t) (hadm : admissible g cp last n = true) :
    ChainOK g cp (seen ++ [n]) (c.extend cp last n) := by
  refine ⟨?_, ?_⟩
  · rw [extend_rev, List.reverse_cons]
    exact List.Sublist.append h.1 (List.Sublist.refl [n])
  · rw [extend_rev, hrev, List.chain'_cons]
    refine ⟨hadm, ?_⟩
    rw [← hrev]
    exact h.2

theorem extensions_ok (g : RepeatGraph) (cp : ChainParams) (seen : List EdgeAlignment)
    (table : List Chain) (n : EdgeAlignment) (h : ∀ c ∈ table, ChainOK g cp seen c) :
    ∀ d ∈ extensions g cp table n, ChainOK g cp (seen ++ [n]) d := by
  intro d hd
  unfold extensions at hd
  obtain ⟨c, hc, hcd⟩ := List.mem_filterMap.1 hd
  match hrev : c.rev with
  | [] => simp [hrev] at hcd
  | last :: t =>
    simp only [hrev] at hcd
    by_cases hadm : admissible g cp last n = true
    · simp only [hadm, if_true, Option.some.injEq] at hcd
      rw [← hcd]
      exact chainOK_extend g cp seen n last t c (h c hc) hrev hadm
    · simp [hadm] at hcd

theorem chainEndingAt_ok (g : RepeatGraph) (cp : ChainParams) (seen : List EdgeAlignment)
    (table : List Chain) (n : EdgeAlignment) (h : ∀ c ∈ table, ChainOK g cp seen c) :
    ChainOK g cp (seen ++ [n]) (chainEndingAt g cp table n) := by
  unfold chainEndingAt
  rcases List.mem_cons.1 (bestOf_mem (extensions g cp table n) (Chain.single n)) with h1 | h1
  · rw [h1]
    exact chainOK_single g cp seen n
  · exact extensions_ok g cp seen table n h _ h1

theorem chainTable_ok (g : RepeatGraph) (cp : ChainParams) (nodes : List EdgeAlignment) :
    ∀ (table : List Chain) (seen : List EdgeAlignment), (∀ c ∈ table, ChainOK g cp seen c) →
      ∀ c ∈ chainTable g cp nodes table, ChainOK g cp (seen ++ nodes) c := by
  induction nodes with
  | nil =>
    intro table seen h c hc
    simpa [chainTable] using h c hc
  | cons n rest ih =>
    intro table seen h c hc
    simp only [chainTable] at hc
    have := ih (table ++ [chainEndingAt g cp table n]) (seen ++ [n]) (by
      intro d hd
      rcases List.mem_append.1 hd with hd | hd
      · exact chainOK_weaken g cp seen n d (h d hd)
      · have : d = chainEndingAt g cp table n := by simpa using hd
        rw [this]
        exact chainEndingAt_ok g cp seen table n h) c hc
    simpa using this

theorem startsBefore_sorted (l : List EdgeAlignment) :
    List.Sorted startsBefore (l.insertionSort startsBefore) :=
  @List.sorted_insertionSort _ startsBefore _
    ⟨fun a b => Int.le_total a.overlap.queryStart b.overlap.queryStart⟩
    ⟨fun _ _ _ h1 h2 => Int.le_trans h1 h2⟩ l

/-- The chainer returns the empty alignment or the nodes of a chain of its
table. -/
theorem chainReadAlignments_cases (g : RepeatGraph) (cp : ChainParams)
    (ovlps : List EdgeAlignment) :
    chainReadAlignments g cp ovlps = [] ∨
      ∃ c, ChainOK g cp (ovlps.insertionSort startsBefore) c ∧
        chainReadAlignments g cp ovlps = c.rev.reverse := by
  unfold chainReadAlignments
  have hok := chainTable_ok g cp (ovlps.insertionSort startsBefore) [] [] (by simp)
  match htab : chainTable g cp (ovlps.insertionSort startsBefore) [] with
  | [] => exact Or.inl rfl
  | c :: cs =>
    simp only
    split_ifs with hw
    · exact Or.inl rfl
    · right
      refine ⟨bestOf c cs, ?_, rfl⟩
      have := hok (bestOf c cs) (by rw [htab]; exact bestOf_mem cs c)
      simpa using this

/-- Every entry of the chain is one of the overlaps given to the chainer. -/
theorem chainReadAlignments_subset (g : RepeatGraph) (cp : ChainParams)
    (ovlps : List EdgeAlignment) : ∀ ea ∈ chainReadAlignments g cp ovlps, ea ∈ ovlps := by
  intro ea hea
  rcases chainReadAlignments_cases g cp ovlps with h | ⟨c, hc, h⟩
  · rw [h] at hea
    simp at hea
  · rw [h] at hea
    exact (List.mem_insertionSort startsBefore).1 (hc.1.subset hea)

theorem chain'_and {α : Type} (R S : α → α → Prop) :
    ∀ l : List α, List.Chain' R l → List.Chain' S l → List.Chain' (fun x y => R x y ∧ S x y) l
  | [], _, _ => List.chain'_nil
  | [_], _, _ => List.chain'_singleton _
  | x :: y :: l, h1, h2 => by
    rw [List.chain'_cons] at h1 h2 ⊢
    exact ⟨⟨h1.1, h2.1⟩, chain'_and R S (y :: l) h1.2 h2.2⟩

/-! ## Chain monotonicity -/

theorem admissible_spec (g : RepeatGraph) (cp : ChainParams) (x y : EdgeAlignment)
    (h : admissible g cp x y = true) :
    (x.overlap.queryEnd - cp.overlapTolerance ≤ y.overlap.queryStart ∧
      y.overlap.queryStart - x.overlap.queryEnd ≤ cp.maximumJump) ∧ Linked g x y := by
  unfold admissible at h
  unfold Linked
  simpa only [Bool.and_eq_true, Bool.or_eq_true, decide_eq_true_eq] using h

theorem chainReadAlignments_linked (g : RepeatGraph) (cp : ChainParams)
    (ovlps : List EdgeAlignment) : ChainLinked g cp (chainReadAlignments g cp ovlps) := by
  unfold ChainLinked
  rcases chainReadAlignments_cases g cp ovlps with h | ⟨c, hc, h⟩
  · rw [h]
    exact List.chain'_nil
  · rw [h]
    have hs : List.Chain' startsBefore c.rev.reverse :=
      List.Pairwise.chain' ((startsBefore_sorted ovlps).sublist hc.1)
    have ha : List.Chain' (fun x y => admissible g cp x y = true) c.rev.reverse := by
      rw [List.chain'_reverse]
      exact hc.2
    refine (chain'_and _ _ _ hs ha).imp ?_
    intro x y hxy
    have := admissible_spec g cp x y hxy.2
    exact ⟨⟨hxy.1, this.1.1, this.1.2⟩, this.2⟩

/-- A read with a single overlap gets the alignment of length 1 (spec section
4.1, edge cases), unless the overlap is shorter than the minimum. -/
theorem chainReadAlignments_single (g : RepeatGraph) (cp : ChainParams) (ea : EdgeAlignment) :
    chainReadAlignments g cp [ea] =
      if matchedLength ea < cp.minimumLength then [] else [ea] := by
  simp [chainReadAlignments, chainTable, chainEndingAt, extensions, bestOf, Chain.single]

/-- Counterexamples to C3 as stated.  A read whose second overlap lies inside
the tolerance of the first and ends before it is chained over the adjacent
edges 1 and 2: the interval ends decrease.  A read that runs along edge 1 in
two overlaps and on to edge 2 is chained with two consecutive entries on
edge 1, whose head vertex 11 is not its tail vertex 10.  And once edge 2 is
retired, the alignment over edges 1 and 2 is still the element of
`getReadsAlignment()`, its second edge no longer in the graph. -/
theorem chain_monotone_counterexamples :
    (chainReadAlignments graphPath chainParams0 [ovlA, ovlX] = [ovlA, ovlX] ∧
        ¬ ChainMonotone graphPath (chainReadAlignments graphPath chainParams0 [ovlA, ovlX])) ∧
      (chainReadAlignments graphPath chainParams0 [ovlA, ovlB, ovlD] = [ovlA, ovlB, ovlD] ∧
        ¬ ChainMonotone graphPath
          (chainReadAlignments graphPath chainParams0 [ovlA, ovlB, ovlD])) ∧
      (getReadsAlignment (retireEdge resolver1 2) = [[ovlA, ovlC]] ∧
        ¬ ∀ ga ∈ getReadsAlignment (retireEdge resolver1 2),
          ChainMonotone (retireEdge resolver1 2).graph ga) := by
  have h1 : chainReadAlignments graphPath chainParams0 [ovlA, ovlX] = [ovlA, ovlX] := by decide
  have h2 : chainReadAlignments graphPath chainParams0 [ovlA, ovlB, ovlD] =
      [ovlA, ovlB, ovlD] := by decide
  have h3 : getReadsAlignment (retireEdge resolver1 2) = [[ovlA, ovlC]] := by decide
  refine ⟨⟨h1, ?_⟩, ⟨h2, ?_⟩, ⟨h3, ?_⟩⟩
  · rw [h1]
    unfold ChainMonotone
    rw [List.chain'_cons]
    rintro ⟨⟨⟨-, hend⟩, -⟩, -⟩
    exact absurd hend (by decide)
  · rw [h2]
    unfold ChainMonotone
    rw [List.chain'_cons]
    rintro ⟨⟨-, hadj⟩, -⟩
    exact absurd hadj (by decide)
  · intro hall
    have := hall [ovlA, ovlC] (by rw [h3]; simp)
    unfold ChainMonotone at this
    rw [List.chain'_cons] at this
    exact absurd this.1.2 (by decide)

/-- C3, as amended: in every alignment `chainReadAlignments` returns, and so in
every element of `getReadsAlignment()` as `alignReads` or `updateAlignments`
leaves it, with respect to the graph they ran on, for each pair of
consecutive entries: the read start of the second is not before that of the
first, it is no earlier than the overlap tolerance before the first one's
read end and no later than the maximum jump after it, and either the first
edge's head vertex is the second edge's tail vertex or the two entries are
on the same edge with the second further along its segment. -/
theorem chain_linked (g : RepeatGraph) (cp : ChainParams) (ovlps : List EdgeAlignment)
    (src : OverlapSource) (s : RepeatResolver) :
    ChainLinked g cp (chainReadAlignments g cp ovlps) ∧
      (∀ ga ∈ getReadsAlignment (alignReads src cp s),
        ChainLinked (alignReads src cp s).graph cp ga) ∧
      ∀ ga ∈ getReadsAlignment (updateAlignments src cp s).1,
        ChainLinked (updateAlignments src cp s).1.graph cp ga := by
  have hal : ∀ ga ∈ getReadsAlignment (alignReads src cp s),
      ChainLinked (alignReads src cp s).graph cp ga := by
    intro ga hga
    simp only [getReadsAlignment, alignReads, List.mem_map] at hga
    obtain ⟨r, -, rfl⟩ := hga
    exact chainReadAlignments_linked s.graph cp _
  exact ⟨chainReadAlignments_linked g cp ovlps, hal, hal⟩

/-- Witness of the amended C3: read 7 is chained over the adjacent edges 1 and
2, and the chain is linked; so is the chain with two entries on edge 1. -/
theorem chain_linked_witness :
    getReadsAlignment resolver1 = [[ovlA, ovlC]] ∧
      (∀ ga ∈ getReadsAlignment (alignReads sourceTwo chainParams0 resolver0),
        ChainLinked (alignReads sourceTwo chainParams0 resolver0).graph chainParams0 ga) ∧
      ChainLinked graphPath chainParams0
        (chainReadAlignments graphPath chainParams0 [ovlA, ovlB, ovlD]) :=
  ⟨by decide, (chain_linked graphPath chainParams0 [] sourceTwo resolver0).2.1,
    (chain_linked graphPath chainParams0 [ovlA, ovlB, ovlD] sourceTwo resolver0).1⟩

/-! ## Idempotent classification -/

theorem classify_tail_head (g : RepeatGraph) (alns : List GraphAlignment) (t : Int)
    (e : GraphEdge) :
    (classify g alns t e).tail = e.tail ∧ (classify g alns t e).head = e.head ∧
      (classify g alns t e).id = e.id ∧ (classify g alns t e).segment = e.segment :=
  ⟨rfl, rfl, rfl, rfl⟩

theorem degrees_classified (g : RepeatGraph) (alns : List GraphAlignment) (t : Int)
    (v : VertexId) :
    inDegree { edges := g.edges.map (classify g alns t) } v = inDegree g v ∧
      outDegree { edges := g.edges.map (classify g alns t) } v = outDegree g v := by
  constructor
  · simp only [inDegree, List.countP_map]
    rfl
  · simp only [outDegree, List.countP_map]
    rfl

theorem classify_classified (g : RepeatGraph) (alns : List GraphAlignment) (t : Int)
    (e : GraphEdge) :
    classify { edges := g.edges.map (classify g alns t) } alns t (classify g alns t e) =
      classify g alns t e := by
  have hnb : nonBranching { edges := g.edges.map (classify g alns t) } (classify g alns t e) =
      nonBranching g e := by
    unfold nonBranching
    simp only [(classify_tail_head g alns t e).1, (classify_tail_head g alns t e).2.1,
      (degrees_classified g alns t _).1, (degrees_classified g alns t _).2]
  have hcov : observedCoverage alns (classify g alns t e) = observedCoverage alns e := rfl
  have hid : (classify g alns t e).id = e.id := rfl
  unfold classify at hnb hcov hid ⊢
  simp only [hnb, hcov]

/-- C4: `findRepeats(T)` called a second time, with the graph and the alignment
set as the first call left them, changes nothing: every edge keeps the
multiplicity label (and the statistics) the first call gave it. -/
theorem findRepeats_idempotent (threshold : Int) (s : RepeatResolver) :
    findRepeats threshold (findRepeats threshold s) = findRepeats threshold s ∧
      (findRepeats threshold (findRepeats threshold s)).graph.edges.map
          (fun e => (e.id, e.multiplicity)) =
        (findRepeats threshold s).graph.edges.map (fun e => (e.id, e.multiplicity)) := by
  have h : findRepeats threshold (findRepeats threshold s) = findRepeats threshold s := by
    unfold findRepeats
    simp only [List.map_map]
    congr 2
    apply List.map_congr_left
    intro e _
    exact classify_classified s.graph s.readAlignments threshold e
  exact ⟨h, by rw [h]⟩

/-- Witness of C4: with threshold 1 the edges 1, 2 and 3 around the branching
vertex 11 are labelled `repeat` and the separate edge 4 `unique`, and a
second call keeps these labels. -/
theorem findRepeats_idempotent_witness :
    (findRepeats 1 resolver1).graph.edges.map (fun e => (e.id, e.multiplicity)) =
        [(1, .repetitive), (2, .repetitive), (3, .repetitive), (4, .unique)] ∧
      (findRepeats 1 (findRepeats 1 resolver1)).graph.edges.map
          (fun e => (e.id, e.multiplicity)) =
        (findRepeats 1 resolver1).graph.edges.map (fun e => (e.id, e.multiplicity)) :=
  ⟨by decide, (findRepeats_idempotent 1 resolver1).2⟩

/-! ## No dangling reference -/

theorem rawAlignments_live (src : OverlapSource) (g : RepeatGraph) (read : SeqId) :
    ∀ ea ∈ rawAlignments src g read, ∃ e ∈ g.edges, e.id = ea.edge := by
  intro ea hea
  unfold rawAlignments at hea
  obtain ⟨o, -, ho⟩ := List.mem_filterMap.1 hea
  cases hf : g.edge? o.targetId with
  | none => simp [hf] at ho
  | some e =>
    simp only [hf, Option.map_some', Option.some.injEq] at ho
    refine ⟨e, ?_, by rw [← ho]⟩
    unfold RepeatGraph.edge? at hf
    exact List.mem_of_find?_eq_some hf

theorem alignReads_live (src : OverlapSource) (cp : ChainParams) (s : RepeatResolver) :
    ∀ ga ∈ getReadsAlignment (alignReads src cp s), ∀ ea ∈ ga,
      ∃ e ∈ (alignReads src cp s).graph.edges, e.id = ea.edge := by
  intro ga hga ea hea
  simp only [getReadsAlignment, alignReads, List.mem_map] at hga
  obtain ⟨r, -, rfl⟩ := hga
  exact rawAlignments_live src s.graph r ea (chainReadAlignments_subset s.graph cp _ ea hea)

/-- C5: after `updateAlignments`, whatever the graph edit before it, every entry
of every alignment of `getReadsAlignment()` points to an edge that is live
in the graph; so after an edge is retired no entry points to it, and after
`separatePath` every entry points to an edge of the separated graph; and
the new alignment set does not depend on the old one. -/
theorem updateAlignments_no_dangling (src : OverlapSource) (cp : ChainParams)
    (s : RepeatResolver) :
    (∀ ga ∈ getReadsAlignment (updateAlignments src cp s).1, ∀ ea ∈ ga,
        ∃ e ∈ (updateAlignments src cp s).1.graph.edges, e.id = ea.edge) ∧
      (updateAlignments src cp s).1.graph = s.graph ∧
      (∀ id, ∀ ga ∈ getReadsAlignment (updateAlignments src cp (retireEdge s id)).1,
        ∀ ea ∈ ga, ea.edge ≠ id) ∧
      (∀ path segment startId,
        ∀ ga ∈ getReadsAlignment
            (updateAlignments src cp (separatePath s path segment startId)).1,
          ∀ ea ∈ ga, ∃ e ∈ (separatePath s path segment startId).graph.edges, e.id = ea.edge) ∧
      (∀ old, getReadsAlignment (updateAlignments src cp { s with readAlignments := old }).1 =
        getReadsAlignment (updateAlignments src cp s).1) := by
  refine ⟨alignReads_live src cp s, rfl, ?_, ?_, fun old => rfl⟩
  · intro id ga hga ea hea hid
    obtain ⟨e, he, heq⟩ := alignReads_live src cp (retireEdge s id) ga hga ea hea
    simp only [alignReads, retireEdge, List.mem_filter, decide_eq_true_eq] at he
    exact he.2 (heq.trans hid)
  · intro path segment startId ga hga ea hea
    exact alignReads_live src cp (separatePath s path segment startId) ga hga ea hea

/-- Witness of C5: the alignment of read 7 runs over edges 1 and 2; once edge 2
is retired the old alignment still points to it, and after `updateAlignments`
the alignment is the entry on edge 1 alone, though the overlap source still
reports the overlap with edge 2. -/
theorem updateAlignments_no_dangling_witness :
    getReadsAlignment (retireEdge resolver1 2) = [[ovlA, ovlC]] ∧
      getReadsAlignment (updateAlignments sourceTwo chainParams0 (retireEdge resolver1 2)).1 =
        [[ovlA]] ∧
      ∀ ga ∈ getReadsAlignment
          (updateAlignments sourceTwo chainParams0 (retireEdge resolver1 2)).1,
        ∀ ea ∈ ga, ea.edge ≠ 2 :=
  ⟨by decide, by decide,
    (updateAlignments_no_dangling sourceTwo chainParams0 resolver1).2.2.1 2⟩

end Flye
